import Mathlib

/-!
# ResearchGate metric pipeline (`src/data-fetcher.js`)

A shallow embedding of `CONFIG` and `ResearchGateDataFetcher`.

* The regular expressions of `parseResearchGateData` are values of a small regex
  syntax, run by a backtracking matcher with the search order of
  `String.prototype.match`: leftmost start, greedy and lazy stars, successive
  non-overlapping matches under the `g` flag.
* `localStorage`, `fetch`, `Date` and the clock are explicit. The entry under
  `CONFIG.cacheKey` and the list of URLs requested are the state (`World`); the outcome
  of every request, the reading `Date` gives of a value, the clock and whether the
  store accepts a write are parameters (`Env`).
* A thrown exception or a rejected promise is an `Except.error`, a `try`/`catch` a
  match on it.

Numbers are doubles with an integer value, `Infinity`, `-Infinity` or `NaN`:
`parseInt` rounds what it reads to the nearest double and overflows to `Infinity`.

What the embedding leaves out. Numbers with a fraction, which only a stored value
could hold, are not modelled. Text is a list of code points. Every request settles,
with a response or a rejection: the `timeout` entry handed to `fetch` is not an option
`fetch` knows, and elapsed time is not modelled. A `localStorage.getItem` that throws
is caught by the reader and reads as no entry, the state `cache = none`. Console output
is not modelled.
-/

namespace JS

/-! ## Characters and character classes -/

/-- The class `\d`. -/
def isDigit (c : Char) : Bool := 48 ≤ c.toNat && c.toNat ≤ 57

/-- The class `\s` of an ECMAScript regular expression (white space and line
terminators); `parseInt` strips the same characters. -/
def isSpace (c : Char) : Bool :=
  let n := c.toNat
  (9 ≤ n && n ≤ 13) || n == 32 || n == 160 || n == 5760 || (8192 ≤ n && n ≤ 8202) ||
    n == 8232 || n == 8233 || n == 8239 || n == 8287 || n == 12288 || n == 65279

/-- Upper-case form of an ASCII code point, other code points unchanged: the
canonicalisation the `i` flag applies, as far as an ASCII pattern can tell. -/
def asciiUpper (n : Nat) : Nat := if 97 ≤ n ∧ n ≤ 122 then n - 32 else n

/-- One literal pattern character, case-sensitive. -/
def isChar (p : Char) (c : Char) : Bool := c.toNat == p.toNat

/-- One literal pattern character under the `i` flag. -/
def isCharI (p : Char) (c : Char) : Bool := asciiUpper c.toNat == asciiUpper p.toNat

/-- The class `[^x]`. -/
def notChar (p : Char) (c : Char) : Bool := !(isChar p c)

/-- The class `[\s\S]`. -/
def anyChar (_ : Char) : Bool := true

/-- The class `[\d,]`. -/
def isDigitOrComma (c : Char) : Bool := isDigit c || isChar ',' c

/-- The class `[><,\s]`. -/
def isDelimiter (c : Char) : Bool := isChar '>' c || isChar '<' c || isChar ',' c || isSpace c

/-! ## Regular expressions -/

/-- The pieces the patterns of `parseResearchGateData` are made of. Every
quantifier in the source applies to a single character class. -/
inductive RNode where
  /-- One character of a class. -/
  | chr (p : Char → Bool)
  /-- Greedy `X*`. -/
  | star (p : Char → Bool)
  /-- Lazy `X*?`. -/
  | lazyStar (p : Char → Bool)
  /-- Opening parenthesis of capture group 1. -/
  | groupOpen
  /-- Closing parenthesis of capture group 1. -/
  | groupClose

/-- A pattern: a sequence of pieces. -/
abbrev Regex := List RNode

/-- A literal string, case-sensitive. -/
def lit (s : String) : Regex := s.toList.map (fun p => RNode.chr (isChar p))

/-- A literal string under the `i` flag. -/
def litI (s : String) : Regex := s.toList.map (fun p => RNode.chr (isCharI p))

/-- A successful match, as the input that remained at three points. -/
structure Match where
  /-- Input remaining where group 1 opened. -/
  groupStart : List Char
  /-- Input remaining where group 1 closed. -/
  groupEnd : List Char
  /-- Input remaining after the whole match. -/
  rest : List Char

/-- Text of capture group 1 (`match[1]`). -/
def Match.group1 (m : Match) : List Char :=
  m.groupStart.take (m.groupStart.length - m.groupEnd.length)

/-- Greedy star: take as many characters of the class as possible, giving one
back at a time while the continuation fails. -/
def greedyStar (p : Char → Bool) (k : List Char → Option Match) : List Char → Option Match
  | [] => k []
  | c :: cs =>
    if p c then
      match greedyStar p k cs with
      | some m => some m
      | none => k (c :: cs)
    else k (c :: cs)

/-- Lazy star: try the continuation first, take one more character of the
class only when it fails. -/
def lazyStar (p : Char → Bool) (k : List Char → Option Match) : List Char → Option Match
  | [] => k []
  | c :: cs =>
    match k (c :: cs) with
    | some m => some m
    | none => if p c then lazyStar p k cs else none

/-- Match a pattern at the start of the input (backtracking). -/
def matchHere : Regex → List Char → Option Match
  | [], s => some ⟨[], [], s⟩
  | RNode.chr _ :: _, [] => none
  | RNode.chr p :: r, c :: cs => if p c then matchHere r cs else none
  | RNode.star p :: r, s => greedyStar p (matchHere r) s
  | RNode.lazyStar p :: r, s => lazyStar p (matchHere r) s
  | RNode.groupOpen :: r, s => (matchHere r s).map (fun m => { m with groupStart := s })
  | RNode.groupClose :: r, s => (matchHere r s).map (fun m => { m with groupEnd := s })

/-- The call `html.match(re)` for a pattern without the `g` flag: the match at the
leftmost position that has one, `none` for `null`. -/
def search (re : Regex) : List Char → Option Match
  | [] => matchHere re []
  | c :: cs =>
    match matchHere re (c :: cs) with
    | some m => some m
    | none => search re cs

/-- Successive matches from the current position on; `skip` counts the
characters still covered by the previous match. -/
def matchAllFrom (re : Regex) : List Char → Nat → List (List Char)
  | [], _ =>
    match matchHere re [] with
    | some _ => [[]]
    | none => []
  | _ :: cs, skip + 1 => matchAllFrom re cs skip
  | c :: cs, 0 =>
    match matchHere re (c :: cs) with
    | some m =>
      let len := (c :: cs).length - m.rest.length
      (c :: cs).take len :: matchAllFrom re cs (len - 1)
    | none => matchAllFrom re cs 0

/-- The call `html.match(re)` for a pattern with the `g` flag: the texts of the
successive non-overlapping matches, left to right (`[]` for `null`). -/
def matchAll (re : Regex) (s : List Char) : List (List Char) := matchAllFrom re s 0

/-! ## Numbers -/

/-- A number other than `NaN`, as far as this program reads, compares or stores
one: a double with an integer value, or an infinity. Every such double is an `int n`;
`roundToDouble` returns only integers that are doubles. Negative zero is not told
apart from zero: the program compares a count with zero, orders counts and passes
them on, and `JSON.stringify` writes both as `0`. -/
inductive JSDouble where
  /-- A finite double whose value is the integer `n`. -/
  | int (n : Int)
  /-- The value `Infinity`, or `-Infinity` when `negative`. -/
  | infinity (negative : Bool)
  deriving DecidableEq

/-- The double `-x`. -/
def JSDouble.negate : JSDouble → JSDouble
  | JSDouble.int n => JSDouble.int (-n)
  | JSDouble.infinity negative => JSDouble.infinity (!negative)

/-- The test `a <= b` on doubles. -/
def JSDouble.leB : JSDouble → JSDouble → Bool
  | JSDouble.int a, JSDouble.int b => decide (a ≤ b)
  | JSDouble.infinity negative, JSDouble.int _ => negative
  | JSDouble.int _, JSDouble.infinity negative => !negative
  | JSDouble.infinity a, JSDouble.infinity b => a || !b

instance : OfNat JSDouble n := ⟨JSDouble.int n⟩

instance : Coe Int JSDouble := ⟨JSDouble.int⟩

instance : Neg JSDouble := ⟨JSDouble.negate⟩

instance : LE JSDouble := ⟨fun a b => JSDouble.leB a b = true⟩

instance (a b : JSDouble) : Decidable (a ≤ b) :=
  inferInstanceAs (Decidable (JSDouble.leB a b = true))

/-- A number: a double, or `none` for `NaN`. -/
abbrev JSNumber := Option JSDouble

/-- How many low bits a natural number has beyond the 53 of a double's
significand; `fuel` bounds the count and the number itself is always enough. -/
def excessBits : Nat → Nat → Nat
  | 0, _ => 0
  | fuel + 1, v => if v < 9007199254740992 then 0 else excessBits fuel (v / 2) + 1

/-- A natural number rounded to 53 significant bits: the number itself below
`2^53`, beyond that the nearest multiple of the power of two that leaves 53 bits, a
tie going to the even one. -/
def roundedValue (v : Nat) : Nat :=
  let e := excessBits v v
  let q := v / 2 ^ e
  let r := v % 2 ^ e
  let up : Bool := decide (2 ^ e < 2 * r) || (decide (2 * r = 2 ^ e) && decide (q % 2 = 1))
  let q1 := if up then q + 1 else q
  q1 * 2 ^ e

/-- The double nearest to a natural number: its rounded value, or `Infinity` when
that reaches `2^1024`. -/
def roundToDouble (v : Nat) : JSDouble :=
  if roundedValue v < 2 ^ 1024 then JSDouble.int (roundedValue v : Nat)
  else JSDouble.infinity false

/-- Value of a digit character in the given radix, if it is one. -/
def digitValue (radix : Nat) (c : Char) : Option Nat :=
  let n := c.toNat
  let v := if 48 ≤ n ∧ n ≤ 57 then n - 48
    else if 97 ≤ n ∧ n ≤ 122 then n - 87
    else if 65 ≤ n ∧ n ≤ 90 then n - 55
    else radix
  if v < radix then some v else none

/-- Read the longest run of digits at the start of the input; the accumulator
holds the value so far and whether a digit was seen. -/
def readDigits (radix : Nat) : List Char → Option Nat → Option Nat
  | [], acc => acc
  | c :: cs, acc =>
    match digitValue radix c with
    | some v => readDigits radix cs (some (acc.getD 0 * radix + v))
    | none => acc

/-- The sign `parseInt` reads: whether it is a minus, and the input after it. -/
def parseSign (s : List Char) : Bool × List Char :=
  match s with
  | c :: r => if isChar '-' c then (true, r) else if isChar '+' c then (false, r) else (false, s)
  | [] => (false, s)

/-- The radix `parseInt` settles on when none is given: 16 after `0x` or `0X`,
which is dropped, and 10 otherwise. -/
def parseRadix (s : List Char) : Nat × List Char :=
  match s with
  | z :: x :: r => if isChar '0' z && isCharI 'x' x then (16, r) else (10, s)
  | _ => (10, s)

/-- The builtin `parseInt(string)` with no radix argument: leading white space
is skipped, a sign and a `0x` marker are honoured, the longest run of digits is read
and its value rounded to a double, and no digit at all gives `NaN`. (The language also
lets an implementation drop the decimal digits after the twentieth before it rounds;
the value here is rounded from all the digits.) -/
def parseInt (s : List Char) : JSNumber :=
  let signed := parseSign (s.dropWhile isSpace)
  let based := parseRadix signed.2
  match readDigits based.1 based.2 none with
  | some v => some (if signed.1 then -(roundToDouble v) else roundToDouble v)
  | none => none

/-- The test `n > 0` on a number (`false` for `NaN`). -/
def JSNumber.isPositive (n : JSNumber) : Bool :=
  match n with
  | some (JSDouble.int k) => decide (0 < k)
  | some (JSDouble.infinity negative) => !negative
  | none => false

/-- The value of `xs[i] || 0` for an array of numbers other than `NaN`: the
element, or `0` when there is none (an element that is `0` gives `0` either way). -/
def orZero (x : Option JSDouble) : JSNumber :=
  match x with
  | some k => some k
  | none => some 0

/-- The call `xs.sort((a, b) => b - a)`: the comparator puts `a` before `b` when
`a` is the larger, and takes two infinities of one sign as equal (`b - a` is `NaN`). -/
def sortDescending (xs : List JSDouble) : List JSDouble :=
  xs.insertionSort (fun a b => b ≤ a)

/-! ## Values, exceptions, storage and the network -/

/-- A value: what `JSON.parse` yields, and what an object in memory holds. -/
inductive JVal where
  /-- The value `null`. -/
  | null
  /-- A boolean. -/
  | bool (b : Bool)
  /-- A number. -/
  | num (n : JSNumber)
  /-- A string. -/
  | str (s : String)
  /-- An array. -/
  | arr (items : List JVal)
  /-- An object, as its own properties in order. -/
  | obj (fields : List (String × JVal))

/-- A thrown exception or a rejected promise. -/
inductive JSError where
  /-- `JSON.parse` on text that is not JSON. -/
  | syntaxError
  /-- Property access on `null`, or a conversion that fails. -/
  | typeError
  /-- `localStorage.setItem` could not store the value. -/
  | quotaExceeded
  /-- Access to `localStorage` is denied. -/
  | securityError
  /-- A rejected `fetch` or `text()` promise (network error, aborted request). -/
  | rejected (reason : String)
  /-- The exception `new Error(message)`. -/
  | error (message : String)

/-- The text `localStorage.getItem` returns, by what the reader can tell of it:
the empty string, text `JSON.parse` rejects, or the JSON text of a value. -/
inductive Stored where
  /-- The empty string. -/
  | empty
  /-- Non-empty text that is not JSON. -/
  | malformed
  /-- The JSON text of `v`; `JSON.parse` gives `v` back. -/
  | json (v : JVal)

/-- Truthiness of the string in `if (cached)`. -/
def Stored.truthy : Stored → Bool
  | Stored.empty => false
  | _ => true

/-- The call `JSON.parse(cached)` on a non-empty string. -/
def JSONparse : Stored → Except JSError JVal
  | Stored.json v => Except.ok v
  | _ => Except.error JSError.syntaxError

/-- Truthiness of a value in `if (cachedData)`. -/
def JVal.truthy : JVal → Bool
  | JVal.null => false
  | JVal.bool b => b
  | JVal.num n => n != none && n != some 0
  | JVal.str s => s != ""
  | _ => true

/-- Property access `data.key`: `none` is `undefined`; reading a property of
`null` throws. Numbers, booleans, strings and arrays have no property of the
names used here. -/
def JVal.property (data : JVal) (key : String) : Except JSError (Option JVal) :=
  match data with
  | JVal.null => Except.error JSError.typeError
  | JVal.obj fields => Except.ok (fields.lookup key)
  | _ => Except.ok none

/-- Assignment of one property of an object literal: an existing key keeps its
place and takes the new value, a new key goes last. -/
def setField (key : String) (v : JVal) : List (String × JVal) → List (String × JVal)
  | [] => [(key, v)]
  | (k, x) :: rest => if k = key then (k, v) :: rest else (k, x) :: setField key v rest

/-- Index keys `0, 1, 2, ...` for the items of an array or the characters of a
string, from `i` on. -/
def indexed (i : Nat) : List JVal → List (String × JVal)
  | [] => []
  | x :: xs => (toString i, x) :: indexed (i + 1) xs

/-- The own enumerable properties a spread `{ ...v }` copies. -/
def JVal.spread : JVal → List (String × JVal)
  | JVal.obj fields => fields
  | JVal.arr items => indexed 0 items
  | JVal.str s => indexed 0 (s.toList.map (fun c => JVal.str (String.mk [c])))
  | _ => []

/-- What a settled `fetch` promise resolves to: `response.ok` and the outcome
of `await response.text()`. -/
structure Response where
  /-- Whether the status is in the range 200-299. -/
  ok : Bool
  /-- The body text, or the rejection of `text()`. -/
  text : Except JSError String

/-- Everything outside the program that a run depends on. -/
structure Env where
  /-- Outcome of `fetch(requestUrl, ...)`. -/
  fetch : String → Except JSError Response
  /-- The reading `new Date(v).getTime()` for a value `v`: a time in milliseconds,
  or `none` for `NaN`. -/
  dateTime : JVal → Except JSError (Option Int)
  /-- The value of `Date.now()` when the cache is read, in milliseconds. -/
  now : Int
  /-- The value of `new Date().toISOString()` when markup is parsed. -/
  nowISO : String
  /-- The value of `new Date().toISOString()` when `CONFIG` was built. -/
  loadISO : String
  /-- Whether `localStorage.setItem` throws (the store is full, or access to it is
  denied). -/
  quotaExceeded : Bool
  /-- Whether `localStorage.removeItem` throws (access to the store is denied). -/
  removeItemThrows : Bool

/-- The state a run reads and changes. -/
structure World where
  /-- The entry of `localStorage` under `CONFIG.cacheKey`, if any. -/
  cache : Option Stored
  /-- The URLs `fetch` has been called with, oldest first. -/
  requests : List String

/-- Upper-case hexadecimal digit. -/
def hexDigit (n : Nat) : Char := Char.ofNat (if n < 10 then 48 + n else 55 + n)

/-- The escape `%XX` of one byte. -/
def percentEscape (b : Nat) : List Char := ['%', hexDigit (b / 16), hexDigit (b % 16)]

/-- UTF-8 bytes of a code point. -/
def utf8Bytes (n : Nat) : List Nat :=
  if n < 128 then [n]
  else if n < 2048 then [192 + n / 64, 128 + n % 64]
  else if n < 65536 then [224 + n / 4096, 128 + n / 64 % 64, 128 + n % 64]
  else [240 + n / 262144, 128 + n / 4096 % 64, 128 + n / 64 % 64, 128 + n % 64]

/-- Characters `encodeURIComponent` leaves alone: letters, digits and
`- _ . ! ~ * ' ( )`. -/
def isUnreserved (c : Char) : Bool :=
  let n := c.toNat
  (48 ≤ n && n ≤ 57) || (65 ≤ n && n ≤ 90) || (97 ≤ n && n ≤ 122) ||
    n == 45 || n == 95 || n == 46 || n == 33 || n == 126 || n == 42 || n == 39 ||
    n == 40 || n == 41

/-- The builtin `encodeURIComponent`. -/
def encodeURIComponent (s : String) : String :=
  String.mk (s.toList.flatMap
    (fun c => if isUnreserved c then [c] else (utf8Bytes c.toNat).flatMap percentEscape))

end JS

/-! ## `CONFIG` -/

namespace CONFIG

/-- The profile page. -/
def researchGateUrl : String := "https://www.researchgate.net/profile/Wu-Hanshuo"

/-- The relay endpoints, in order. -/
def corsProxies : List String :=
  ["https://api.allorigins.win/raw?url=", "https://corsproxy.io/?",
    "https://api.codetabs.com/v1/proxy?quest="]

/-- The storage key. -/
def cacheKey : String := "researchgate_data_cache"

/-- The time to live, `24 * 60 * 60 * 1000` milliseconds. -/
def cacheExpiry : Int := 24 * 60 * 60 * 1000

/-- The static fallback snapshot; its `lastUpdated` is the instant `CONFIG`
was built. -/
def fallbackData (loadISO : String) : List (String × JS.JVal) :=
  [("publications", JS.JVal.num (some 105)), ("citations", JS.JVal.num (some 1041)),
    ("reads", JS.JVal.num (some 16593)), ("lastUpdated", JS.JVal.str loadISO)]

end CONFIG

open JS

namespace ResearchGateDataFetcher

/-! ## The patterns of `parseResearchGateData` -/

/-- One or more digits, `\d+`. -/
def digits : Regex := [RNode.chr isDigit, RNode.star isDigit]

/-- A digit run with separators, `\d[\d,]*`. -/
def digitRun : Regex := [RNode.chr isDigit, RNode.star isDigitOrComma]

/-- Capture group 1 around a pattern. -/
def group (r : Regex) : Regex := RNode.groupOpen :: r ++ [RNode.groupClose]

/-- The pattern `/Publications\s*\((\d+)\)/i`. -/
def publicationPattern1 : Regex :=
  litI "Publications" ++ [RNode.star isSpace, RNode.chr (isCharI '(')] ++ group digits ++
    [RNode.chr (isCharI ')')]

/-- The pattern `/(\d+)\s*Publications/i`. -/
def publicationPattern2 : Regex :=
  group digits ++ [RNode.star isSpace] ++ litI "Publications"

/-- The pattern
`/class="nova-legacy-e-text nova-legacy-e-text--size-xl[^"]*"[^>]*>(\d+)</`. -/
def publicationPattern3 : Regex :=
  lit "class=\"nova-legacy-e-text nova-legacy-e-text--size-xl" ++
    [RNode.star (notChar '"'), RNode.chr (isChar '"'), RNode.star (notChar '>'),
      RNode.chr (isChar '>')] ++ group digits ++ [RNode.chr (isChar '<')]

/-- The pattern `/Citations[^>]*>[\s\S]*?(\d[\d,]*)/i`. -/
def citationPattern1 : Regex :=
  litI "Citations" ++ [RNode.star (notChar '>'), RNode.chr (isCharI '>'),
    RNode.lazyStar anyChar] ++ group digitRun

/-- The pattern `/(\d[\d,]*)\s*Citations/i`. -/
def citationPattern2 : Regex :=
  group digitRun ++ [RNode.star isSpace] ++ litI "Citations"

/-- The pattern
`/class="nova-legacy-e-text[^"]*nova-legacy-e-text--color-grey-700[^"]*"[^>]*>(\d[\d,]*)</`. -/
def citationPattern3 : Regex :=
  lit "class=\"nova-legacy-e-text" ++ [RNode.star (notChar '"')] ++
    lit "nova-legacy-e-text--color-grey-700" ++
    [RNode.star (notChar '"'), RNode.chr (isChar '"'), RNode.star (notChar '>'),
      RNode.chr (isChar '>')] ++ group digitRun ++ [RNode.chr (isChar '<')]

/-- The pattern `/Reads[^>]*>[\s\S]*?(\d[\d,]*)/i`. -/
def readsPattern1 : Regex :=
  litI "Reads" ++ [RNode.star (notChar '>'), RNode.chr (isCharI '>'),
    RNode.lazyStar anyChar] ++ group digitRun

/-- The pattern `/(\d[\d,]*)\s*Reads/i`. -/
def readsPattern2 : Regex :=
  group digitRun ++ [RNode.star isSpace] ++ litI "Reads"

/-- The pattern `/>\s*(\d[\d,]*)\s*</g`. -/
def numberPattern : Regex :=
  [RNode.chr (isChar '>'), RNode.star isSpace] ++ group digitRun ++
    [RNode.star isSpace, RNode.chr (isChar '<')]

/-- First alternative of `a || b` that is not `null`. -/
def orElse (a b : Option Match) : Option Match :=
  match a with
  | some m => some m
  | none => b

/-- The value of `publicationMatch`. -/
def publicationMatch (html : List Char) : Option Match :=
  orElse (search publicationPattern1 html)
    (orElse (search publicationPattern2 html) (search publicationPattern3 html))

/-- The value of `citationMatch`. -/
def citationMatch (html : List Char) : Option Match :=
  orElse (search citationPattern1 html)
    (orElse (search citationPattern2 html) (search citationPattern3 html))

/-- The value of `readsMatch`. -/
def readsMatch (html : List Char) : Option Match :=
  orElse (search readsPattern1 html) (search readsPattern2 html)

/-- The call `text.replace(/,/g, '')`. -/
def removeCommas (s : List Char) : List Char := s.filter (fun c => !(isChar ',' c))

/-- The call `n.replace(/[><,\s]/g, '')`. -/
def removeDelimiters (s : List Char) : List Char := s.filter (fun c => !(isDelimiter c))

/-- The object `data` of `parseResearchGateData`. -/
structure MetricData where
  /-- Publication count. -/
  publications : JSNumber
  /-- Citation count. -/
  citations : JSNumber
  /-- Read count. -/
  reads : JSNumber
  /-- ISO-8601 text of the instant of extraction. -/
  lastUpdated : String

/-- The counts after the labeled patterns, before the positional fallback
(`lastUpdated` is `new Date().toISOString()`, given as `nowISO`). -/
def labeledCounts (nowISO : String) (html : List Char) : MetricData :=
  { publications :=
      match publicationMatch html with
      | some m => parseInt m.group1
      | none => some 0
    citations :=
      match citationMatch html with
      | some m => parseInt (removeCommas m.group1)
      | none => some 0
    reads :=
      match readsMatch html with
      | some m => parseInt (removeCommas m.group1)
      | none => some 0
    lastUpdated := nowISO }

/-- The array `parsedNumbers` before it is sorted: the first five matches,
delimiters removed, parsed, and only the positive numbers kept. -/
def parsedNumbers (numbers : List (List Char)) : List JSDouble :=
  ((numbers.take 5).map (fun n => parseInt (removeDelimiters n))).filterMap
    (fun n => if JSNumber.isPositive n then n else none)

/-- The positional fallback, entered when all three counts are `0`. -/
def positionalFallback (data : MetricData) (html : List Char) : MetricData :=
  let numbers := matchAll numberPattern html
  if 3 ≤ numbers.length then
    let parsed := parsedNumbers numbers
    if 3 ≤ parsed.length then
      let sorted := sortDescending parsed
      { data with
        publications := orZero sorted[0]?
        reads := orZero sorted[1]?
        citations := orZero sorted[2]? }
    else data
  else data

/-- The function `parseResearchGateData(html)`. The `DOMParser` document it builds
is never read. -/
def parseResearchGateData (nowISO : String) (html : String) : MetricData :=
  let data := labeledCounts nowISO html.toList
  if data.publications = some 0 ∧ data.citations = some 0 ∧ data.reads = some 0 then
    positionalFallback data html.toList
  else data

/-! ## The cache, the transport and the orchestrator -/

/-- The object `data` as its properties in order. -/
def MetricData.fields (data : MetricData) : List (String × JVal) :=
  [("publications", JVal.num data.publications), ("citations", JVal.num data.citations),
    ("reads", JVal.num data.reads), ("lastUpdated", JVal.str data.lastUpdated)]

/-- A number as `JSON.stringify` writes it and `JSON.parse` reads it back:
`NaN`, `Infinity` and `-Infinity` become `null`. -/
def jsonNumber (n : JSNumber) : JVal :=
  match n with
  | some (JSDouble.int k) => JVal.num (some (JSDouble.int k))
  | some (JSDouble.infinity _) => JVal.null
  | none => JVal.null

/-- The text `JSON.stringify(data)`, as the value it parses back to. -/
def JSONstringify (data : MetricData) : Stored :=
  Stored.json (JVal.obj
    [("publications", jsonNumber data.publications), ("citations", jsonNumber data.citations),
      ("reads", jsonNumber data.reads), ("lastUpdated", JVal.str data.lastUpdated)])

/-- The loop of `fetchWithProxy` over the relays still to try; `requests`
collects the URLs handed to `fetch`. A rejected `fetch`, a rejected `text()` and
a response that is not `ok` all move on to the next relay. -/
def fetchLoop (env : Env) (url : String) :
    List String → List String → Except JSError String × List String
  | [], requests => (Except.error (JSError.error "All CORS proxies failed"), requests)
  | proxy :: rest, requests =>
    let request := proxy ++ encodeURIComponent url
    match env.fetch request with
    | Except.ok response =>
      if response.ok then
        match response.text with
        | Except.ok text => (Except.ok text, requests ++ [request])
        | Except.error _ => fetchLoop env url rest (requests ++ [request])
      else fetchLoop env url rest (requests ++ [request])
    | Except.error _ => fetchLoop env url rest (requests ++ [request])

/-- The function `fetchWithProxy(url)`. -/
def fetchWithProxy (env : Env) (url : String) (w : World) : Except JSError String × World :=
  let r := fetchLoop env url CONFIG.corsProxies w.requests
  (r.1, { w with requests := r.2 })

/-- The `try` block of `getCachedData`: `some data` when it returns from inside
the block, `none` when control falls out of it. -/
def getCachedDataTry (env : Env) (w : World) : Except JSError (Option JVal) :=
  match w.cache with
  | none => Except.ok none
  | some cached =>
    if cached.truthy then
      match JSONparse cached with
      | Except.error e => Except.error e
      | Except.ok data =>
        match data.property "lastUpdated" with
        | Except.error e => Except.error e
        | Except.ok lastUpdated =>
          match (match lastUpdated with
            | some v => env.dateTime v
            | none => Except.ok none) with
          | Except.error e => Except.error e
          | Except.ok none => Except.ok none
          | Except.ok (some cachedTime) =>
            if env.now - cachedTime < CONFIG.cacheExpiry then Except.ok (some data)
            else Except.ok none
    else Except.ok none

/-- The function `getCachedData()`; `none` is `null`. -/
def getCachedData (env : Env) (w : World) : Option JVal :=
  match getCachedDataTry env w with
  | Except.ok r => r
  | Except.error _ => none

/-- The function `setCachedData(data)`. -/
def setCachedData (env : Env) (data : MetricData) (w : World) : World :=
  let attempt : Except JSError World :=
    if env.quotaExceeded then Except.error JSError.quotaExceeded
    else Except.ok { w with cache := some (JSONstringify data) }
  match attempt with
  | Except.ok w1 => w1
  | Except.error _ => w

/-- The `try` block of `fetchData`: `some result` when it returns from inside
the block, `none` when control falls out of it. -/
def fetchDataTry (env : Env) (w : World) : Except JSError (Option JVal) × World :=
  match fetchWithProxy env CONFIG.researchGateUrl w with
  | (Except.error e, w1) => (Except.error e, w1)
  | (Except.ok html, w1) =>
    let data := parseResearchGateData env.nowISO html
    if data.publications.isPositive || data.citations.isPositive || data.reads.isPositive then
      (Except.ok (some (JVal.obj (setField "fromCache" (JVal.bool false) data.fields))),
        setCachedData env data w1)
    else (Except.ok none, w1)

/-- The object `{ ...CONFIG.fallbackData, fromCache: false, isFallback: true }`. -/
def fallbackResult (env : Env) : JVal :=
  JVal.obj (setField "isFallback" (JVal.bool true)
    (setField "fromCache" (JVal.bool false) (CONFIG.fallbackData env.loadISO)))

/-- The part of `fetchData` after a cache miss. -/
def fetchFresh (env : Env) (w : World) : Except JSError JVal × World :=
  match fetchDataTry env w with
  | (Except.ok (some result), w1) => (Except.ok result, w1)
  | (_, w1) => (Except.ok (fallbackResult env), w1)

/-- The function `fetchData()`: the value the promise settles with, and the
state afterwards. -/
def fetchData (env : Env) (w : World) : Except JSError JVal × World :=
  match getCachedData env w with
  | some cachedData =>
    if cachedData.truthy then
      (Except.ok (JVal.obj (setField "fromCache" (JVal.bool true) cachedData.spread)), w)
    else fetchFresh env w
  | none => fetchFresh env w

/-- The function `refreshData()`. The call `localStorage.removeItem` stands
outside any `try`: when it throws, the promise is rejected and nothing else is done. -/
def refreshData (env : Env) (w : World) : Except JSError JVal × World :=
  if env.removeItemThrows then (Except.error JSError.securityError, w)
  else fetchData env { w with cache := none }

/-! ## Notions used to state the properties -/

/-- What one relay delivers: the body text of an `ok` response, or `none` when
the request was rejected, the status was not a success, or the body could not be read. -/
def relayText (env : Env) (request : String) : Option String :=
  match env.fetch request with
  | Except.ok response =>
    if response.ok then
      match response.text with
      | Except.ok text => some text
      | Except.error _ => none
    else none
  | Except.error _ => none

/-- The URL requested through one relay. -/
def requestUrl (url : String) (proxy : String) : String := proxy ++ encodeURIComponent url

/-- The entry under the cache key is the JSON text of the object `data`, whose
`lastUpdated` the clock reads as an instant less than `CONFIG.cacheExpiry` before now. -/
def FreshEntry (env : Env) (w : World) (data : JVal) : Prop :=
  w.cache = some (Stored.json data) ∧
    ∃ fields v t, data = JVal.obj fields ∧ fields.lookup "lastUpdated" = some v ∧
      env.dateTime v = Except.ok (some t) ∧ env.now - t < CONFIG.cacheExpiry

/-- A reading of `Date` for the examples: the two timestamps used there, and the
values whose reading the language fixes (`null`, booleans, numbers within the
range of time values); any other text is taken as unreadable. -/
def sampleDate : JVal → Except JSError (Option Int)
  | JVal.str s =>
    if s = "2024-01-01T00:00:00.000Z" then Except.ok (some 1704067200000)
    else if s = "2023-12-31T01:00:00.000Z" then Except.ok (some 1703984400000)
    else Except.ok none
  | JVal.null => Except.ok (some 0)
  | JVal.bool b => Except.ok (some (if b then 1 else 0))
  | JVal.num (some (JSDouble.int n)) =>
    if n.natAbs ≤ 8640000000000000 then Except.ok (some n) else Except.ok none
  | _ => Except.ok none

/-- A network in which the first relay is unreachable, the second answers with
`body` and status 200, and the third answers with status 503. -/
def sampleFetch (body : String) (request : String) : Except JSError Response :=
  if request = requestUrl CONFIG.researchGateUrl "https://corsproxy.io/?" then
    Except.ok { ok := true, text := Except.ok body }
  else if request = requestUrl CONFIG.researchGateUrl "https://api.allorigins.win/raw?url=" then
    Except.error (JSError.rejected "Failed to fetch")
  else Except.ok { ok := false, text := Except.ok "Service Unavailable" }

/-- One hour after midnight of 1 January 2024 (UTC), with the sample network;
`removeItem` works, and `setItem` throws when `quotaExceeded`. -/
def sampleEnv (body : String) (quotaExceeded : Bool) : Env :=
  { fetch := sampleFetch body
    dateTime := sampleDate
    now := 1704067200000 + 3600000
    nowISO := "2024-01-01T01:00:00.000Z"
    loadISO := "2024-01-01T00:59:00.000Z"
    quotaExceeded := quotaExceeded
    removeItemThrows := false }

/-- A snapshot written at midnight of 1 January 2024 (UTC). -/
def sampleSnapshot : MetricData :=
  { publications := some 7, citations := some 8, reads := some 9,
    lastUpdated := "2024-01-01T00:00:00.000Z" }

/-- The static fallback snapshot as `fetchData()` returns it. -/
def fallbackObject (loadISO : String) : JVal :=
  JVal.obj
    [("publications", JVal.num (some 105)), ("citations", JVal.num (some 1041)),
      ("reads", JVal.num (some 16593)), ("lastUpdated", JVal.str loadISO),
      ("fromCache", JVal.bool false), ("isFallback", JVal.bool true)]

/-- A count as `parseInt` reads one from a run of digits: a non-negative integer,
or `Infinity` when the run is too long for a double. -/
def JSNumber.IsCount (x : JSNumber) : Prop :=
  (∃ n : Int, 0 ≤ n ∧ x = some (JSDouble.int n)) ∨ x = some (JSDouble.infinity false)

/-- All three counts are `0`. -/
def MetricData.allZero (data : MetricData) : Prop :=
  data.publications = some 0 ∧ data.citations = some 0 ∧ data.reads = some 0

/-- The counts of a snapshot as the data model has them: `publications`,
`citations` and `reads` are non-negative integers. -/
def NonNegativeCounts (v : JVal) : Prop :=
  ∃ fields, v = JVal.obj fields ∧
    (∃ n : Int, 0 ≤ n ∧ fields.lookup "publications" = some (JVal.num (some n))) ∧
    (∃ n : Int, 0 ≤ n ∧ fields.lookup "citations" = some (JVal.num (some n))) ∧
    (∃ n : Int, 0 ≤ n ∧ fields.lookup "reads" = some (JVal.num (some n)))

/-- The counts of an object as the live path can give them: `publications`,
`citations` and `reads` are non-negative integers or `Infinity`. -/
def CountsOrInfinity (v : JVal) : Prop :=
  ∃ fields, v = JVal.obj fields ∧
    (∃ x, JSNumber.IsCount x ∧ fields.lookup "publications" = some (JVal.num x)) ∧
    (∃ x, JSNumber.IsCount x ∧ fields.lookup "citations" = some (JVal.num x)) ∧
    (∃ x, JSNumber.IsCount x ∧ fields.lookup "reads" = some (JVal.num x))

/-- A snapshot as the data model has it: the three counts and a text `lastUpdated`. -/
def IsSnapshot (v : JVal) : Prop :=
  NonNegativeCounts v ∧
    ∃ fields s, v = JVal.obj fields ∧ fields.lookup "lastUpdated" = some (JVal.str s)

/-- The environment `sampleEnv body true` in a page that is denied access to
`localStorage`: `removeItem` throws as `setItem` does. -/
def lockedEnv (body : String) : Env :=
  { sampleEnv body true with removeItemThrows := true }

/-- A snapshot written at 01:00 on 31 December 2023 (UTC), 24 hours to the
millisecond before the clock of `sampleEnv`. -/
def daySnapshot : MetricData :=
  { publications := some 7, citations := some 8, reads := some 9,
    lastUpdated := "2023-12-31T01:00:00.000Z" }

/-- An entry that has a timestamp and nothing else. -/
def timestampOnly : JVal := JVal.obj [("lastUpdated", JVal.str "2024-01-01T00:00:00.000Z")]

/-! ## The language of a pattern -/

/-- A pattern without capture parentheses. -/
def noGroup : Regex → Bool
  | [] => true
  | RNode.groupOpen :: _ => false
  | RNode.groupClose :: _ => false
  | _ :: r => noGroup r

/-- The text `g` is in the language of the pattern: each piece accounts for its
share of `g`, in order. Greedy and lazy stars have the same language, and
capture parentheses do not change it. -/
def Accepts : Regex → List Char → Prop
  | [], g => g = []
  | RNode.chr p :: r, g => ∃ c g1, g = c :: g1 ∧ p c = true ∧ Accepts r g1
  | RNode.star p :: r, g => ∃ a g1, g = a ++ g1 ∧ (∀ c ∈ a, p c = true) ∧ Accepts r g1
  | RNode.lazyStar p :: r, g => ∃ a g1, g = a ++ g1 ∧ (∀ c ∈ a, p c = true) ∧ Accepts r g1
  | RNode.groupOpen :: r, g => Accepts r g
  | RNode.groupClose :: r, g => Accepts r g

/-- The positive numbers among the given tokens, in order: each token with
`>`, `<`, commas and white space removed and read by `parseInt`. -/
def positiveValues (tokens : List (List Char)) : List JSDouble :=
  (tokens.map (fun n => parseInt (removeDelimiters n))).filterMap
    (fun n => if JSNumber.isPositive n then n else none)

/-- A table of six bare numbers and no label. -/
def sampleTable : String :=
  "<td>50</td><td>16593</td><td>1,041</td><td>12</td><td>3</td><td>99999</td>"

/-- The three counts `(publications, citations, reads)` of a snapshot. -/
def MetricData.counts (data : MetricData) : JSNumber × JSNumber × JSNumber :=
  (data.publications, data.citations, data.reads)

/-- Markup with the three labeled counts in the order publications, citations,
reads, each in an element of its own. -/
def profileMarkup : String :=
  "<div>Publications (105)</div><div>1,041 Citations</div><div>Reads</div><div>16,593</div>"

/-- An entry one hour old whose counts are a negative number and a string, with
`reads` missing. -/
def corruptEntry : JVal :=
  JVal.obj
    [("publications", JVal.num (some (-5))), ("citations", JVal.str "many"),
      ("lastUpdated", JVal.str "2024-01-01T00:00:00.000Z")]

/-- Some text at the start of `s` is in the language of the pattern. -/
def MatchesAt (re : Regex) (s : List Char) : Prop := ∃ g rest, s = g ++ rest ∧ Accepts re g

/-- In the input `a ++ rest`, no text that begins within `a` is in the language of
the pattern. -/
def NoMatchIn (re : Regex) (a rest : List Char) : Prop :=
  ∀ a1 a2, a = a1 ++ a2 → a2 ≠ [] → ¬ MatchesAt re (a2 ++ rest)

/-- No text of `s` is in the language of the pattern. -/
def NoMatch (re : Regex) (s : List Char) : Prop := ∀ a s1, s = a ++ s1 → ¬ MatchesAt re s1

/-- In the input `a ++ rest`, the matcher finds nothing at any position within `a`. -/
def noneBefore (re : Regex) : List Char → List Char → Bool
  | [], _ => true
  | c :: a, rest => (matchHere re (c :: (a ++ rest))).isNone && noneBefore re a rest

/-- No run of digits and commas in the text is longer than 308 characters. -/
def ShortRuns (s : List Char) : Prop :=
  ∀ g, List.IsInfix g s → (∀ c ∈ g, isDigitOrComma c = true) → g.length ≤ 308

/-- A count read from a run of digits and commas of the text `s`, or the count
`0` of a pattern that did not match: the double nearest to a natural number with no
more digits than the run has characters. -/
def FromRun (s : List Char) (x : JSNumber) : Prop :=
  x = some 0 ∨
    ∃ g v, List.IsInfix g s ∧ (∀ c ∈ g, isDigitOrComma c = true) ∧ v < 10 ^ g.length ∧
      x = some (roundToDouble v)

/-- The leftmost text that `/Publications\s*\((\d+)\)/i` can match is the label
`lab`, white space, `(`, the digits `g` and `)`. -/
def PublicationFirst (html g : List Char) : Prop :=
  ∃ a lab ws t, html = a ++ (lab ++ (ws ++ '(' :: (g ++ ')' :: t))) ∧
    NoMatchIn publicationPattern1 a (lab ++ (ws ++ '(' :: (g ++ ')' :: t))) ∧
    Accepts (litI "Publications") lab ∧ (∀ x ∈ ws, isSpace x = true) ∧ Accepts digits g

/-- The leftmost text that the pattern `re`, which is `/Label[^>]*>[\s\S]*?(\d[\d,]*)/i`,
can match begins with the label `lab` and goes on with text up to the first `>`, text
without a digit, and the run `g` of digits and commas, which ends where `g` ends. -/
def LabelThenRun (label : String) (re : Regex) (html g : List Char) : Prop :=
  ∃ a lab c1 c2 t, html = a ++ (lab ++ (c1 ++ '>' :: (c2 ++ (g ++ t)))) ∧
    NoMatchIn re a (lab ++ (c1 ++ '>' :: (c2 ++ (g ++ t)))) ∧
    Accepts (litI label) lab ∧ (∀ x ∈ c1, notChar '>' x = true) ∧
    (∀ x ∈ c2, isDigit x = false) ∧ Accepts digitRun g ∧
    (∀ x ∈ t.head?, isDigitOrComma x = false)

/-- The leftmost text that the pattern `re`, which is `/(\d[\d,]*)\s*Label/i`, can
match is the run `g` of digits and commas, white space and the label `lab`. -/
def RunThenLabel (label : String) (re : Regex) (html g : List Char) : Prop :=
  ∃ a ws lab t, html = a ++ (g ++ (ws ++ (lab ++ t))) ∧
    NoMatchIn re a (g ++ (ws ++ (lab ++ t))) ∧
    Accepts digitRun g ∧ (∀ x ∈ ws, isSpace x = true) ∧ Accepts (litI label) lab

/-- Markup with the three labeled counts in the order publications, reads,
citations, each in an element of its own. -/
def taggedMarkup : String :=
  "<span>Publications (105)</span><span>Reads</span><span>16,593</span>" ++
    "<span>1,041 Citations</span>"

/-- Markup in which each of the three labeled texts comes after another text that
its pattern matches. -/
def repeatedMarkup : String :=
  "<p>Publications (1) Publications (105)</p><p>Reads</p>3 Reads> 16,593 " ++
    "2 Citations 1,041 Citations"

/-- A run of 310 digits. -/
def longRun : String := String.mk (List.replicate 310 '9')

/-! ## Soundness of the matcher -/

theorem greedyStar_sound (p : Char → Bool) (k : List Char → Option Match) (m : Match) :
    ∀ s, greedyStar p k s = some m →
      ∃ a s1, s = a ++ s1 ∧ (∀ c ∈ a, p c = true) ∧ k s1 = some m := by
  intro s
  induction s with
  | nil =>
    intro h
    exact ⟨[], [], rfl, by simp, by simpa [greedyStar] using h⟩
  | cons c cs ih =>
    intro h
    rw [greedyStar] at h
    by_cases hp : p c = true
    · rw [if_pos hp] at h
      cases hg : greedyStar p k cs with
      | some m1 =>
        rw [hg] at h
        simp only [Option.some.injEq] at h
        subst h
        obtain ⟨a, s1, hs, ha, hk⟩ := ih hg
        refine ⟨c :: a, s1, by simp [hs], ?_, hk⟩
        intro x hx
        rcases List.mem_cons.mp hx with rfl | hx
        · exact hp
        · exact ha x hx
      | none =>
        rw [hg] at h
        exact ⟨[], c :: cs, rfl, by simp, h⟩
    · rw [if_neg hp] at h
      exact ⟨[], c :: cs, rfl, by simp, h⟩

theorem lazyStar_sound (p : Char → Bool) (k : List Char → Option Match) (m : Match) :
    ∀ s, lazyStar p k s = some m →
      ∃ a s1, s = a ++ s1 ∧ (∀ c ∈ a, p c = true) ∧ k s1 = some m := by
  intro s
  induction s with
  | nil =>
    intro h
    exact ⟨[], [], rfl, by simp, by simpa [lazyStar] using h⟩
  | cons c cs ih =>
    intro h
    rw [lazyStar] at h
    cases hk : k (c :: cs) with
    | some m1 =>
      rw [hk] at h
      simp only [Option.some.injEq] at h
      subst h
      exact ⟨[], c :: cs, rfl, by simp, hk⟩
    | none =>
      rw [hk] at h
      simp only at h
      by_cases hp : p c = true
      · rw [if_pos hp] at h
        obtain ⟨a, s1, hs, ha, hk1⟩ := ih h
        refine ⟨c :: a, s1, by simp [hs], ?_, hk1⟩
        intro x hx
        rcases List.mem_cons.mp hx with rfl | hx
        · exact hp
        · exact ha x hx
      · rw [if_neg hp] at h
        exact absurd h (by simp)

/-- A match of `pre ++ r` splits the input into text of the language of `pre` and
the input on which `r` produced the match. -/
theorem matchHere_append_sound (pre r : Regex) (hpre : noGroup pre = true) (m : Match) :
    ∀ s, matchHere (pre ++ r) s = some m →
      ∃ g s1, s = g ++ s1 ∧ Accepts pre g ∧ matchHere r s1 = some m := by
  induction pre with
  | nil =>
    intro s h
    exact ⟨[], s, rfl, rfl, h⟩
  | cons node pre ih =>
    intro s h
    cases node with
    | chr p =>
      have hpre1 : noGroup pre = true := by simpa [noGroup] using hpre
      cases s with
      | nil => simp [matchHere] at h
      | cons c cs =>
        simp only [List.cons_append, matchHere] at h
        by_cases hp : p c = true
        · rw [if_pos hp] at h
          obtain ⟨g, s1, hs, hg, hm⟩ := ih hpre1 cs h
          exact ⟨c :: g, s1, by simp [hs], ⟨c, g, rfl, hp, hg⟩, hm⟩
        · rw [if_neg hp] at h
          exact absurd h (by simp)
    | star p =>
      have hpre1 : noGroup pre = true := by simpa [noGroup] using hpre
      simp only [List.cons_append, matchHere] at h
      obtain ⟨a, s1, hs, ha, hk⟩ := greedyStar_sound p _ m s h
      obtain ⟨g, s2, hs2, hg, hm⟩ := ih hpre1 s1 hk
      exact ⟨a ++ g, s2, by simp [hs, hs2], ⟨a, g, rfl, ha, hg⟩, hm⟩
    | lazyStar p =>
      have hpre1 : noGroup pre = true := by simpa [noGroup] using hpre
      simp only [List.cons_append, matchHere] at h
      obtain ⟨a, s1, hs, ha, hk⟩ := lazyStar_sound p _ m s h
      obtain ⟨g, s2, hs2, hg, hm⟩ := ih hpre1 s1 hk
      exact ⟨a ++ g, s2, by simp [hs, hs2], ⟨a, g, rfl, ha, hg⟩, hm⟩
    | groupOpen => simp [noGroup] at hpre
    | groupClose => simp [noGroup] at hpre

/-- The text of group 1 of a match is in the language of the group's body, and is
part of the input. -/
theorem matchHere_group_sound (pre body post : Regex) (hpre : noGroup pre = true)
    (hbody : noGroup body = true) (m : Match) (s : List Char)
    (h : matchHere (pre ++ group body ++ post) s = some m) :
    Accepts body m.group1 ∧ ∃ a t, s = a ++ (m.group1 ++ t) := by
  rw [List.append_assoc] at h
  obtain ⟨g0, s1, hs1, _, h1⟩ := matchHere_append_sound pre _ hpre m s h
  simp only [group, List.cons_append, matchHere, Option.map_eq_some'] at h1
  obtain ⟨m1, h1, hm⟩ := h1
  have h1 : matchHere (body ++ (RNode.groupClose :: post)) s1 = some m1 := by
    have e : (List.append body [RNode.groupClose]).append post
        = body ++ (RNode.groupClose :: post) := by
      show (body ++ [RNode.groupClose]) ++ post = _
      simp
    rw [← e]
    exact h1
  obtain ⟨g, s2, hs2, hg, h2⟩ := matchHere_append_sound body _ hbody m1 s1 h1
  simp only [matchHere, Option.map_eq_some'] at h2
  obtain ⟨m2, _, hm1⟩ := h2
  subst hm1 hm hs2 hs1
  have e : Match.group1 { groupStart := g ++ s2, groupEnd := s2, rest := m2.rest } = g := by
    simp [Match.group1]
  exact ⟨by rw [e]; exact hg, g0, s2, by rw [e]⟩

theorem search_sound (re : Regex) (m : Match) :
    ∀ s, search re s = some m → ∃ a s1, s = a ++ s1 ∧ matchHere re s1 = some m := by
  intro s
  induction s with
  | nil =>
    intro h
    exact ⟨[], [], rfl, h⟩
  | cons c cs ih =>
    intro h
    rw [search] at h
    cases hm : matchHere re (c :: cs) with
    | some m1 =>
      rw [hm] at h
      simp only [Option.some.injEq] at h
      subst h
      exact ⟨[], c :: cs, rfl, hm⟩
    | none =>
      rw [hm] at h
      obtain ⟨a, s1, hs, h1⟩ := ih h
      exact ⟨c :: a, s1, by simp [hs], h1⟩

theorem search_group_sound (pre body post : Regex) (hpre : noGroup pre = true)
    (hbody : noGroup body = true) (m : Match) (s : List Char)
    (h : search (pre ++ group body ++ post) s = some m) :
    Accepts body m.group1 ∧ List.IsInfix m.group1 s := by
  obtain ⟨a0, s1, hs, h1⟩ := search_sound _ m s h
  obtain ⟨hacc, a, t, hs1⟩ := matchHere_group_sound pre body post hpre hbody m s1 h1
  exact ⟨hacc, a0 ++ a, t, by rw [hs, hs1]; simp⟩

/-- Soundness of the matcher: what a match consumed is in the language of the
pattern. -/
theorem matchHere_sound (re : Regex) :
    ∀ (s : List Char) (m : Match), matchHere re s = some m →
      ∃ g, s = g ++ m.rest ∧ Accepts re g := by
  induction re with
  | nil =>
    intro s m h
    simp only [matchHere, Option.some.injEq] at h
    subst h
    exact ⟨[], rfl, rfl⟩
  | cons node r ih =>
    intro s m h
    cases node with
    | chr p =>
      cases s with
      | nil => simp [matchHere] at h
      | cons c cs =>
        simp only [matchHere] at h
        by_cases hp : p c = true
        · rw [if_pos hp] at h
          obtain ⟨g, hs, hg⟩ := ih cs m h
          exact ⟨c :: g, by simp [hs], ⟨c, g, rfl, hp, hg⟩⟩
        · rw [if_neg hp] at h
          exact absurd h (by simp)
    | star p =>
      simp only [matchHere] at h
      obtain ⟨a, s1, hs, ha, hk⟩ := greedyStar_sound p _ m s h
      obtain ⟨g, hs1, hg⟩ := ih s1 m hk
      exact ⟨a ++ g, by simp [hs, hs1], ⟨a, g, rfl, ha, hg⟩⟩
    | lazyStar p =>
      simp only [matchHere] at h
      obtain ⟨a, s1, hs, ha, hk⟩ := lazyStar_sound p _ m s h
      obtain ⟨g, hs1, hg⟩ := ih s1 m hk
      exact ⟨a ++ g, by simp [hs, hs1], ⟨a, g, rfl, ha, hg⟩⟩
    | groupOpen =>
      simp only [matchHere, Option.map_eq_some'] at h
      obtain ⟨m1, h1, hm⟩ := h
      obtain ⟨g, hs, hg⟩ := ih s m1 h1
      subst hm
      exact ⟨g, hs, hg⟩
    | groupClose =>
      simp only [matchHere, Option.map_eq_some'] at h
      obtain ⟨m1, h1, hm⟩ := h
      obtain ⟨g, hs, hg⟩ := ih s m1 h1
      subst hm
      exact ⟨g, hs, hg⟩

theorem matchesAt_of_matchHere (re : Regex) (s : List Char) (m : Match)
    (h : matchHere re s = some m) : MatchesAt re s := by
  obtain ⟨g, hs, hg⟩ := matchHere_sound re s m h
  exact ⟨g, m.rest, hs, hg⟩

theorem greedyStar_complete (p : Char → Bool) (k : List Char → Option Match)
    (a s1 : List Char) (ha : ∀ c ∈ a, p c = true) (hk : (k s1).isSome = true) :
    (greedyStar p k (a ++ s1)).isSome = true := by
  induction a with
  | nil =>
    cases s1 with
    | nil => simpa [greedyStar] using hk
    | cons c cs =>
      simp only [List.nil_append, greedyStar]
      split
      · split
        · rfl
        · exact hk
      · exact hk
  | cons x a ih =>
    have h1 := ih (fun c hc => ha c (by simp [hc]))
    rw [List.cons_append, greedyStar, if_pos (ha x (by simp))]
    cases hg : greedyStar p k (a ++ s1) with
    | some m => rfl
    | none => rw [hg] at h1; exact absurd h1 (by simp)

theorem lazyStar_complete (p : Char → Bool) (k : List Char → Option Match)
    (a s1 : List Char) (ha : ∀ c ∈ a, p c = true) (hk : (k s1).isSome = true) :
    (lazyStar p k (a ++ s1)).isSome = true := by
  induction a with
  | nil =>
    cases s1 with
    | nil => simpa [lazyStar] using hk
    | cons c cs =>
      simp only [List.nil_append, lazyStar]
      cases hc : k (c :: cs) with
      | some m => rfl
      | none => rw [hc] at hk; exact absurd hk (by simp)
  | cons x a ih =>
    have h1 := ih (fun c hc => ha c (by simp [hc]))
    rw [List.cons_append, lazyStar]
    cases hc : k (x :: (a ++ s1)) with
    | some m => rfl
    | none =>
      simp only
      rw [if_pos (ha x (by simp))]
      exact h1

/-- Completeness of the matcher: where some text is in the language of the
pattern, the matcher finds a match. -/
theorem matchHere_complete (re : Regex) :
    ∀ s : List Char, MatchesAt re s → (matchHere re s).isSome = true := by
  induction re with
  | nil => intro s _; rfl
  | cons node r ih =>
    intro s h
    obtain ⟨g, rest, hs, hg⟩ := h
    cases node with
    | chr p =>
      obtain ⟨c, g1, hg1, hp, hr⟩ := hg
      subst hg1 hs
      simp only [List.cons_append, matchHere, if_pos hp]
      exact ih _ ⟨g1, rest, rfl, hr⟩
    | star p =>
      obtain ⟨a, g1, hg1, ha, hr⟩ := hg
      subst hg1 hs
      simp only [matchHere, List.append_assoc]
      exact greedyStar_complete p _ a _ ha (ih _ ⟨g1, rest, rfl, hr⟩)
    | lazyStar p =>
      obtain ⟨a, g1, hg1, ha, hr⟩ := hg
      subst hg1 hs
      simp only [matchHere, List.append_assoc]
      exact lazyStar_complete p _ a _ ha (ih _ ⟨g1, rest, rfl, hr⟩)
    | groupOpen =>
      have := ih s ⟨g, rest, hs, hg⟩
      simp only [matchHere, Option.isSome_map']
      exact this
    | groupClose =>
      have := ih s ⟨g, rest, hs, hg⟩
      simp only [matchHere, Option.isSome_map']
      exact this

theorem matchHere_none_of_not_matchesAt (re : Regex) (s : List Char)
    (h : ¬ MatchesAt re s) : matchHere re s = none := by
  cases hm : matchHere re s with
  | none => rfl
  | some m => exact absurd (matchesAt_of_matchHere re s m hm) h

theorem not_matchesAt_of_none (re : Regex) (s : List Char)
    (h : matchHere re s = none) : ¬ MatchesAt re s := by
  intro hm
  have := matchHere_complete re s hm
  rw [h] at this
  exact absurd this (by simp)

/-- The search passes over a stretch of input in which no match begins. -/
theorem search_of_noMatchIn (re : Regex) (a rest : List Char) (h : NoMatchIn re a rest) :
    search re (a ++ rest) = search re rest := by
  induction a with
  | nil => rfl
  | cons x a ih =>
    have h1 : matchHere re (x :: (a ++ rest)) = none :=
      matchHere_none_of_not_matchesAt re _ (h [] (x :: a) rfl (by simp))
    rw [List.cons_append, search, h1]
    exact ih (fun a1 a2 ha hne => h (x :: a1) a2 (by simp [ha]) hne)

theorem search_of_some (re : Regex) (s : List Char) (m : Match)
    (h : matchHere re s = some m) : search re s = some m := by
  cases s with
  | nil => exact h
  | cons x s => simp [search, h]

theorem search_none_of_noMatch (re : Regex) (s : List Char) (h : NoMatch re s) :
    search re s = none := by
  cases hs : search re s with
  | none => rfl
  | some m =>
    obtain ⟨a, s1, hs1, hm⟩ := search_sound re m s hs
    exact absurd (matchesAt_of_matchHere re s1 m hm) (h a s1 hs1)

theorem noMatch_of_search_none (re : Regex) :
    ∀ s : List Char, search re s = none → NoMatch re s := by
  intro s
  induction s with
  | nil =>
    intro h a s1 hs
    have hs1 : s1 = [] := by
      have := congrArg List.length hs
      simp at this
      exact List.eq_nil_of_length_eq_zero (by omega)
    subst hs1
    exact not_matchesAt_of_none re [] h
  | cons x s ih =>
    intro h a s1 hs
    rw [search] at h
    cases hm : matchHere re (x :: s) with
    | some m => rw [hm] at h; exact absurd h (by simp)
    | none =>
      rw [hm] at h
      cases a with
      | nil =>
        simp only [List.nil_append] at hs
        subst hs
        exact not_matchesAt_of_none re _ hm
      | cons y a =>
        simp only [List.cons_append, List.cons.injEq] at hs
        exact ih h a s1 hs.2

theorem noMatchIn_of_noneBefore (re : Regex) (a rest : List Char)
    (h : noneBefore re a rest = true) : NoMatchIn re a rest := by
  induction a with
  | nil =>
    intro a1 a2 ha hne
    have : a2 = [] := by
      have := congrArg List.length ha
      simp at this
      exact List.eq_nil_of_length_eq_zero (by omega)
    exact absurd this hne
  | cons x a ih =>
    simp only [noneBefore, Bool.and_eq_true, Option.isNone_iff_eq_none] at h
    intro a1 a2 ha hne
    cases a1 with
    | nil =>
      simp only [List.nil_append] at ha
      subst ha
      exact not_matchesAt_of_none re _ h.1
    | cons y a1 =>
      simp only [List.cons_append, List.cons.injEq] at ha
      exact ih h.2 a1 a2 ha.2 hne
theorem isDigit_iff (c : Char) : isDigit c = true ↔ 48 ≤ c.toNat ∧ c.toNat ≤ 57 := by
  simp [isDigit]

theorem digit_not_space (c : Char) (h : isDigit c = true) : isSpace c = false := by
  rw [isDigit_iff] at h
  simp only [isSpace, Bool.or_eq_false_iff, Bool.and_eq_false_iff, decide_eq_false_iff_not,
    beq_eq_false_iff_ne]
  omega

theorem digit_not_char (p c : Char) (h : isDigit c = true)
    (hp : p.toNat < 48 ∨ 57 < p.toNat) : isChar p c = false := by
  rw [isDigit_iff] at h
  simp only [isChar, beq_eq_false_iff_ne]
  omega

theorem digit_not_charI (p c : Char) (h : isDigit c = true)
    (hp : 65 ≤ p.toNat) : isCharI p c = false := by
  rw [isDigit_iff] at h
  simp only [isCharI, asciiUpper, beq_eq_false_iff_ne]
  split <;> split <;> omega

theorem digitValue_digit (c : Char) (h : isDigit c = true) :
    digitValue 10 c = some (c.toNat - 48) := by
  rw [isDigit_iff] at h
  simp only [digitValue]
  rw [if_pos h, if_pos (by omega)]

theorem readDigits_some (ds : List Char) (hds : ∀ c ∈ ds, isDigit c = true) :
    ∀ v : Nat, ∃ v1, v1 < (v + 1) * 10 ^ ds.length ∧ readDigits 10 ds (some v) = some v1 := by
  induction ds with
  | nil => intro v; exact ⟨v, by simp, rfl⟩
  | cons c cs ih =>
    intro v
    have hc := hds c (by simp)
    rw [readDigits, digitValue_digit c hc]
    obtain ⟨v1, hlt, hv1⟩ :=
      ih (fun x hx => hds x (by simp [hx])) ((some v).getD 0 * 10 + (c.toNat - 48))
    refine ⟨v1, lt_of_lt_of_le hlt ?_, hv1⟩
    rw [isDigit_iff] at hc
    have e : (v + 1) * 10 ^ (c :: cs).length = ((v + 1) * 10) * 10 ^ cs.length := by
      rw [List.length_cons, pow_succ, Nat.mul_assoc, Nat.mul_comm (10 ^ cs.length) 10]
    rw [e, Option.getD_some]
    exact Nat.mul_le_mul_right _ (by omega)

/-! ## Reading numbers -/

theorem excessBits_le (fuel v : Nat) :
    excessBits fuel v = 0 ∨ 2 ^ 52 * 2 ^ excessBits fuel v ≤ v := by
  induction fuel generalizing v with
  | zero => left; rfl
  | succ k ih =>
    rw [excessBits]
    split
    · left; rfl
    · right
      rename_i h
      rcases ih (v / 2) with h0 | h1
      · rw [h0]
        norm_num at h ⊢
        omega
      · rw [pow_succ]
        have := Nat.div_mul_le_self v 2
        omega

theorem roundToDouble_cases (v : Nat) :
    (∃ n : Int, 0 ≤ n ∧ roundToDouble v = JSDouble.int n) ∨
      roundToDouble v = JSDouble.infinity false := by
  unfold roundToDouble
  split
  · left; exact ⟨_, Int.natCast_nonneg _, rfl⟩
  · right; rfl

theorem roundedValue_exact (v : Nat) (h : v < 9007199254740992) : roundedValue v = v := by
  have he : excessBits v v = 0 := by
    cases v with
    | zero => rfl
    | succ k => rw [excessBits, if_pos h]
  unfold roundedValue
  rw [he]
  simp [Nat.mod_one]

/-- Rounding moves a number by no more than one part in `2^52`. -/
theorem roundedValue_le (v : Nat) : 2 ^ 52 * roundedValue v ≤ (2 ^ 52 + 1) * v := by
  unfold roundedValue
  lift_lets
  intro e q r up q1
  have hq : q * 2 ^ e ≤ v := Nat.div_mul_le_self v (2 ^ e)
  have h1 : q1 * 2 ^ e ≤ q * 2 ^ e + 2 ^ e := by
    show (if up = true then q + 1 else q) * 2 ^ e ≤ _
    split
    · rw [Nat.add_mul, one_mul]
    · exact Nat.le_add_right _ _
  rcases excessBits_le v v with h0 | h2
  · have hq1 : q1 * 2 ^ e = v := by
      show (if (decide (2 ^ e < 2 * r) || (decide (2 * r = 2 ^ e) && decide (q % 2 = 1))) = true
        then q + 1 else q) * 2 ^ e = v
      have he : e = 0 := h0
      have hr0 : r = 0 := by
        show v % 2 ^ e = 0
        rw [he]; simp [Nat.mod_one]
      have hq0 : q = v := by
        show v / 2 ^ e = v
        rw [he]; simp
      rw [hr0, hq0, he]
      simp
    rw [hq1]
    omega
  · have h3 : 2 ^ 52 * 2 ^ e ≤ v := h2
    generalize q1 * 2 ^ e = X at h1 ⊢
    generalize q * 2 ^ e = Y at hq h1
    generalize 2 ^ e = P at h1 h3
    omega

set_option exponentiation.threshold 2000 in
/-- A number below `2^53` is a double. -/
theorem roundToDouble_exact (v : Nat) (h : v < 9007199254740992) :
    roundToDouble v = JSDouble.int v := by
  have h2 : v < 2 ^ 1024 := lt_of_lt_of_le h (by norm_num)
  unfold roundToDouble
  rw [roundedValue_exact v h, if_pos h2]

set_option exponentiation.threshold 2000 in
/-- A number of at most 308 decimal digits rounds to a finite double. -/
theorem roundToDouble_finite (v : Nat) (h : v < 10 ^ 308) :
    ∃ n : Int, 0 ≤ n ∧ roundToDouble v = JSDouble.int n := by
  have h1 := roundedValue_le v
  have h2 : roundedValue v < 2 ^ 1024 := by
    generalize roundedValue v = X at h1
    omega
  unfold roundToDouble
  rw [if_pos h2]
  exact ⟨_, Int.natCast_nonneg _, rfl⟩

/-- On a digit followed by digits, `parseInt` gives the double nearest to a natural
number of no more digits. -/
theorem parseInt_digits (c : Char) (ds : List Char) (hc : isDigit c = true)
    (hds : ∀ x ∈ ds, isDigit x = true) :
    ∃ v : Nat, v < 10 ^ (ds.length + 1) ∧ parseInt (c :: ds) = some (roundToDouble v) := by
  have hsp := digit_not_space c hc
  have hminus := digit_not_char '-' c hc (by decide)
  have hplus := digit_not_char '+' c hc (by decide)
  have hsign : parseSign (c :: ds) = (false, c :: ds) := by
    simp [parseSign, hminus, hplus]
  have hbase : parseRadix (c :: ds) = (10, c :: ds) := by
    cases ds with
    | nil => rfl
    | cons x r =>
      have hx := digit_not_charI 'x' x (hds x (by simp)) (by decide)
      simp [parseRadix, hx]
  obtain ⟨v, hlt, hv⟩ : ∃ v, v < 10 ^ (ds.length + 1) ∧
      readDigits 10 (c :: ds) none = some v := by
    rw [readDigits, digitValue_digit c hc]
    obtain ⟨v1, hlt, hv1⟩ :=
      readDigits_some ds hds ((none : Option Nat).getD 0 * 10 + (c.toNat - 48))
    refine ⟨v1, lt_of_lt_of_le hlt ?_, hv1⟩
    rw [isDigit_iff] at hc
    rw [pow_succ, Nat.mul_comm (10 ^ ds.length) 10, Option.getD_none]
    exact Nat.mul_le_mul_right _ (by omega)
  refine ⟨v, hlt, ?_⟩
  simp [parseInt, List.dropWhile_cons, hsp, hsign, hbase, hv]

theorem accepts_digits (g : List Char) (h : Accepts digits g) :
    ∃ c ds, g = c :: ds ∧ isDigit c = true ∧ ∀ x ∈ ds, isDigit x = true := by
  obtain ⟨c, g1, hg, hc, a, g2, hg1, ha, hg2⟩ := h
  simp only [Accepts] at hg2
  subst hg2
  exact ⟨c, a, by simp [hg, hg1], hc, ha⟩

theorem accepts_digitRun (g : List Char) (h : Accepts digitRun g) :
    ∃ c ds, g = c :: ds ∧ isDigit c = true ∧ ∀ x ∈ ds, isDigitOrComma x = true := by
  obtain ⟨c, g1, hg, hc, a, g2, hg1, ha, hg2⟩ := h
  simp only [Accepts] at hg2
  subst hg2
  exact ⟨c, a, by simp [hg, hg1], hc, ha⟩

/-- The text of capture group `(\d+)` reads as the double nearest to a natural
number of no more digits. -/
theorem parseInt_of_digits (g : List Char) (h : Accepts digits g) :
    (∀ c ∈ g, isDigitOrComma c = true) ∧
      ∃ v, v < 10 ^ g.length ∧ parseInt g = some (roundToDouble v) := by
  obtain ⟨c, ds, hg, hc, hds⟩ := accepts_digits g h
  subst hg
  refine ⟨?_, parseInt_digits c ds hc hds⟩
  intro x hx
  rcases List.mem_cons.mp hx with rfl | hx
  · simp [isDigitOrComma, hc]
  · simp [isDigitOrComma, hds x hx]

theorem removeCommas_digitRun (c : Char) (ds : List Char) (hc : isDigit c = true)
    (hds : ∀ x ∈ ds, isDigitOrComma x = true) :
    removeCommas (c :: ds) = c :: removeCommas ds ∧
      (∀ x ∈ removeCommas ds, isDigit x = true) ∧
      (removeCommas ds).length ≤ ds.length := by
  have hcomma := digit_not_char ',' c hc (by decide)
  refine ⟨by simp [removeCommas, hcomma], ?_, ?_⟩
  · intro x hx
    simp only [removeCommas, List.mem_filter, Bool.not_eq_true'] at hx
    have := hds x hx.1
    simp only [isDigitOrComma, Bool.or_eq_true] at this
    rcases this with h1 | h1
    · exact h1
    · rw [hx.2] at h1
      exact absurd h1 (by simp)
  · exact List.length_filter_le _ _

/-- The text of capture group `(\d[\d,]*)`, commas removed, reads as the double
nearest to a natural number of no more digits than the text has characters. -/
theorem parseInt_of_digitRun (g : List Char) (h : Accepts digitRun g) :
    (∀ c ∈ g, isDigitOrComma c = true) ∧
      ∃ v, v < 10 ^ g.length ∧ parseInt (removeCommas g) = some (roundToDouble v) := by
  obtain ⟨c, ds, hg, hc, hds⟩ := accepts_digitRun g h
  subst hg
  obtain ⟨e, hdig, hlen⟩ := removeCommas_digitRun c ds hc hds
  rw [e]
  obtain ⟨v, hlt, hv⟩ := parseInt_digits c _ hc hdig
  refine ⟨?_, v, lt_of_lt_of_le hlt (Nat.pow_le_pow_right (by decide) ?_), hv⟩
  · intro x hx
    rcases List.mem_cons.mp hx with rfl | hx
    · simp [isDigitOrComma, hc]
    · exact hds x hx
  · simp only [List.length_cons]
    omega

theorem isCount_roundToDouble (v : Nat) : JSNumber.IsCount (some (roundToDouble v)) := by
  rcases roundToDouble_cases v with ⟨n, hn, h⟩ | h
  · exact Or.inl ⟨n, hn, by rw [h]⟩
  · exact Or.inr (by rw [h])

/-- A count read from a run of digits is a non-negative integer or `Infinity`. -/
theorem isCount_of_fromRun (s : List Char) (x : JSNumber) (h : FromRun s x) :
    JSNumber.IsCount x := by
  rcases h with h | ⟨g, v, _, _, _, h⟩
  · exact Or.inl ⟨0, le_refl _, h⟩
  · rw [h]
    exact isCount_roundToDouble v

set_option exponentiation.threshold 2000 in
/-- A count read from a run of digits of a text without long runs is a
non-negative integer. -/
theorem integer_of_fromRun (s : List Char) (x : JSNumber) (hs : ShortRuns s)
    (h : FromRun s x) : ∃ n : Int, 0 ≤ n ∧ x = some (JSDouble.int n) := by
  rcases h with h | ⟨g, v, hinf, hg, hlt, h⟩
  · exact ⟨0, le_refl _, h⟩
  · obtain ⟨n, hn, hr⟩ := roundToDouble_finite v
      (lt_of_lt_of_le hlt (Nat.pow_le_pow_right (by decide) (hs g hinf hg)))
    exact ⟨n, hn, by rw [h, hr]⟩

/-! ## The extractor -/

theorem publicationMatch_group (html : List Char) (m : Match)
    (h : publicationMatch html = some m) :
    Accepts digits m.group1 ∧ List.IsInfix m.group1 html := by
  unfold publicationMatch orElse at h
  cases h1 : search publicationPattern1 html with
  | some m1 =>
    rw [h1] at h
    simp only [Option.some.injEq] at h
    subst h
    exact search_group_sound (litI "Publications" ++ [RNode.star isSpace, RNode.chr (isCharI '(')])
      digits [RNode.chr (isCharI ')')] rfl rfl m1 html h1
  | none =>
    rw [h1] at h
    simp only at h
    cases h2 : search publicationPattern2 html with
    | some m2 =>
      rw [h2] at h
      simp only [Option.some.injEq] at h
      subst h
      exact search_group_sound [] digits ([RNode.star isSpace] ++ litI "Publications") rfl rfl
        m2 html (by simpa [publicationPattern2] using h2)
    | none =>
      rw [h2] at h
      simp only at h
      exact search_group_sound
        (lit "class=\"nova-legacy-e-text nova-legacy-e-text--size-xl" ++
          [RNode.star (notChar '"'), RNode.chr (isChar '"'), RNode.star (notChar '>'),
            RNode.chr (isChar '>')])
        digits [RNode.chr (isChar '<')] rfl rfl m html h

theorem citationMatch_group (html : List Char) (m : Match)
    (h : citationMatch html = some m) :
    Accepts digitRun m.group1 ∧ List.IsInfix m.group1 html := by
  unfold citationMatch orElse at h
  cases h1 : search citationPattern1 html with
  | some m1 =>
    rw [h1] at h
    simp only [Option.some.injEq] at h
    subst h
    exact search_group_sound
      (litI "Citations" ++ [RNode.star (notChar '>'), RNode.chr (isCharI '>'),
        RNode.lazyStar anyChar])
      digitRun [] rfl rfl m1 html (by simpa [citationPattern1] using h1)
  | none =>
    rw [h1] at h
    simp only at h
    cases h2 : search citationPattern2 html with
    | some m2 =>
      rw [h2] at h
      simp only [Option.some.injEq] at h
      subst h
      exact search_group_sound [] digitRun ([RNode.star isSpace] ++ litI "Citations") rfl rfl
        m2 html (by simpa [citationPattern2] using h2)
    | none =>
      rw [h2] at h
      simp only at h
      exact search_group_sound
        (lit "class=\"nova-legacy-e-text" ++ [RNode.star (notChar '"')] ++
          lit "nova-legacy-e-text--color-grey-700" ++
          [RNode.star (notChar '"'), RNode.chr (isChar '"'), RNode.star (notChar '>'),
            RNode.chr (isChar '>')])
        digitRun [RNode.chr (isChar '<')] rfl rfl m html h

theorem readsMatch_group (html : List Char) (m : Match)
    (h : readsMatch html = some m) :
    Accepts digitRun m.group1 ∧ List.IsInfix m.group1 html := by
  unfold readsMatch orElse at h
  cases h1 : search readsPattern1 html with
  | some m1 =>
    rw [h1] at h
    simp only [Option.some.injEq] at h
    subst h
    exact search_group_sound
      (litI "Reads" ++ [RNode.star (notChar '>'), RNode.chr (isCharI '>'),
        RNode.lazyStar anyChar])
      digitRun [] rfl rfl m1 html (by simpa [readsPattern1] using h1)
  | none =>
    rw [h1] at h
    simp only at h
    exact search_group_sound [] digitRun ([RNode.star isSpace] ++ litI "Reads") rfl rfl
      m html (by simpa [readsPattern2] using h)

/-- The labeled patterns give counts read from runs of digits of the markup. -/
theorem labeledCounts_fromRun (nowISO : String) (html : List Char) :
    FromRun html (labeledCounts nowISO html).publications ∧
    FromRun html (labeledCounts nowISO html).citations ∧
    FromRun html (labeledCounts nowISO html).reads := by
  refine ⟨?_, ?_, ?_⟩
  · simp only [labeledCounts]
    cases h : publicationMatch html with
    | none => exact Or.inl rfl
    | some m =>
      obtain ⟨hacc, hinf⟩ := publicationMatch_group html m h
      obtain ⟨hall, v, hlt, hv⟩ := parseInt_of_digits _ hacc
      exact Or.inr ⟨_, v, hinf, hall, hlt, hv⟩
  · simp only [labeledCounts]
    cases h : citationMatch html with
    | none => exact Or.inl rfl
    | some m =>
      obtain ⟨hacc, hinf⟩ := citationMatch_group html m h
      obtain ⟨hall, v, hlt, hv⟩ := parseInt_of_digitRun _ hacc
      exact Or.inr ⟨_, v, hinf, hall, hlt, hv⟩
  · simp only [labeledCounts]
    cases h : readsMatch html with
    | none => exact Or.inl rfl
    | some m =>
      obtain ⟨hacc, hinf⟩ := readsMatch_group html m h
      obtain ⟨hall, v, hlt, hv⟩ := parseInt_of_digitRun _ hacc
      exact Or.inr ⟨_, v, hinf, hall, hlt, hv⟩

theorem parsedNumbers_eq (numbers : List (List Char)) :
    parsedNumbers numbers = positiveValues (numbers.take 5) := rfl

theorem positiveValues_mem (tokens : List (List Char)) (x : JSDouble)
    (hx : x ∈ positiveValues tokens) :
    ∃ tok ∈ tokens, parseInt (removeDelimiters tok) = some x := by
  simp only [positiveValues, List.mem_filterMap, List.mem_map] at hx
  obtain ⟨n, ⟨tok, htok, hn⟩, hpos⟩ := hx
  refine ⟨tok, htok, ?_⟩
  rw [hn]
  by_cases hp : JSNumber.isPositive n = true
  · rw [if_pos hp] at hpos
    exact hpos
  · rw [if_neg hp] at hpos
    exact absurd hpos (by simp)

/-- The matches of a pattern with the `g` flag are parts of the input, in the
language of the pattern. -/
theorem matchAllFrom_sound (re : Regex) :
    ∀ (s : List Char) (skip : Nat), ∀ tok ∈ matchAllFrom re s skip,
      List.IsInfix tok s ∧ Accepts re tok := by
  intro s
  induction s with
  | nil =>
    intro skip tok htok
    simp only [matchAllFrom] at htok
    cases hm : matchHere re [] with
    | none => rw [hm] at htok; simp at htok
    | some m =>
      rw [hm] at htok
      simp only [List.mem_singleton] at htok
      subst htok
      obtain ⟨g, hs, hg⟩ := matchHere_sound re [] m hm
      have hg0 : g = [] := by
        have := congrArg List.length hs
        simp at this
        exact List.eq_nil_of_length_eq_zero (by omega)
      subst hg0
      exact ⟨List.infix_refl _, hg⟩
  | cons c cs ih =>
    intro skip tok htok
    cases skip with
    | succ k =>
      simp only [matchAllFrom] at htok
      obtain ⟨hinf, hacc⟩ := ih k tok htok
      exact ⟨hinf.trans (List.suffix_cons c cs).isInfix, hacc⟩
    | zero =>
      simp only [matchAllFrom] at htok
      cases hm : matchHere re (c :: cs) with
      | none =>
        rw [hm] at htok
        obtain ⟨hinf, hacc⟩ := ih 0 tok htok
        exact ⟨hinf.trans (List.suffix_cons c cs).isInfix, hacc⟩
      | some m =>
        rw [hm] at htok
        simp only [List.mem_cons] at htok
        obtain ⟨g, hs, hg⟩ := matchHere_sound re (c :: cs) m hm
        rcases htok with htok | htok
        · have e : (c :: cs).take ((c :: cs).length - m.rest.length) = g := by
            rw [hs]
            simp
          rw [e] at htok
          subst htok
          exact ⟨⟨[], m.rest, by simp [hs]⟩, hg⟩
        · obtain ⟨hinf, hacc⟩ := ih _ tok htok
          exact ⟨hinf.trans (List.suffix_cons c cs).isInfix, hacc⟩

theorem digit_not_delimiter (c : Char) (h : isDigit c = true) : isDelimiter c = false := by
  simp [isDelimiter, digit_not_char '>' c h (by decide), digit_not_char '<' c h (by decide),
    digit_not_char ',' c h (by decide), digit_not_space c h]

/-- What `parseInt` reads from a match of `/>\s*(\d[\d,]*)\s*</g` with the
delimiters removed. -/
theorem parseInt_of_token (tok : List Char) (h : Accepts numberPattern tok) :
    ∃ g v, List.IsInfix g tok ∧ (∀ c ∈ g, isDigitOrComma c = true) ∧ v < 10 ^ g.length ∧
      parseInt (removeDelimiters tok) = some (roundToDouble v) := by
  simp only [numberPattern, group, digitRun, List.cons_append, List.nil_append, Accepts] at h
  obtain ⟨c0, g1, htok, hc0, ws1, g2, hg1, hws1, d, g3, hg2, hd, run, g4, hg3, hrun,
    ws2, g5, hg4, hws2, c1, g6, hg5, hc1, hg6⟩ := h
  subst hg6 hg5 hg4 hg3 hg2 hg1 htok
  have hdel1 : ∀ x ∈ ws1, isDelimiter x = true := fun x hx => by
    simp [isDelimiter, hws1 x hx]
  have hdel2 : ∀ x ∈ ws2, isDelimiter x = true := fun x hx => by
    simp [isDelimiter, hws2 x hx]
  have hf1 : ws1.filter (fun c => !(isDelimiter c)) = [] := by
    rw [List.filter_eq_nil_iff]
    intro x hx
    simp [hdel1 x hx]
  have hf2 : ws2.filter (fun c => !(isDelimiter c)) = [] := by
    rw [List.filter_eq_nil_iff]
    intro x hx
    simp [hdel2 x hx]
  have hc0d : isDelimiter c0 = true := by simp [isDelimiter, hc0]
  have hc1d : isDelimiter c1 = true := by simp [isDelimiter, hc1]
  have hdd := digit_not_delimiter d hd
  have e : removeDelimiters (c0 :: (ws1 ++ d :: (run ++ (ws2 ++ [c1]))))
      = d :: run.filter (fun c => !(isDelimiter c)) := by
    simp [removeDelimiters, List.filter_cons, List.filter_append, hf1, hf2, hc0d, hc1d, hdd]
  have hdig : ∀ x ∈ run.filter (fun c => !(isDelimiter c)), isDigit x = true := by
    intro x hx
    simp only [List.mem_filter, Bool.not_eq_true'] at hx
    have h1 := hrun x hx.1
    simp only [isDigitOrComma, Bool.or_eq_true] at h1
    rcases h1 with h1 | h1
    · exact h1
    · have h2 := hx.2
      simp [isDelimiter, h1] at h2
  obtain ⟨v, hlt, hv⟩ := parseInt_digits d _ hd hdig
  refine ⟨d :: run, v, ⟨c0 :: ws1, ws2 ++ [c1], by simp⟩, ?_,
    lt_of_lt_of_le hlt (Nat.pow_le_pow_right (by decide) ?_), by rw [e]; exact hv⟩
  · intro x hx
    rcases List.mem_cons.mp hx with rfl | hx
    · simp [isDigitOrComma, hd]
    · exact hrun x hx
  · simp only [List.length_cons]
    have := List.length_filter_le (fun c => !(isDelimiter c)) run
    omega

/-- The positive values of the first five tokens are read from runs of digits of
the markup, and are positive. -/
theorem positiveValues_fromRun (s : List Char) (x : JSDouble)
    (hx : x ∈ positiveValues ((matchAll numberPattern s).take 5)) :
    FromRun s (some x) := by
  obtain ⟨tok, htok, hparse⟩ := positiveValues_mem _ x hx
  obtain ⟨hinf, hacc⟩ := matchAllFrom_sound numberPattern s 0 tok (List.mem_of_mem_take htok)
  obtain ⟨g, v, hg, hall, hlt, hv⟩ := parseInt_of_token tok hacc
  rw [hparse] at hv
  exact Or.inr ⟨g, v, hg.trans hinf, hall, hlt, hv⟩

theorem positiveValues_length_le (tokens : List (List Char)) :
    (positiveValues tokens).length ≤ tokens.length := by
  unfold positiveValues
  exact (List.length_filterMap_le _ _).trans (by simp)

theorem JSDouble.le_iff (a b : JSDouble) : a ≤ b ↔ JSDouble.leB a b = true := Iff.rfl

theorem JSDouble.le_total (a b : JSDouble) : a ≤ b ∨ b ≤ a := by
  rw [JSDouble.le_iff, JSDouble.le_iff]
  cases a with
  | int x =>
    cases b with
    | int y =>
      simp only [JSDouble.leB, decide_eq_true_eq]
      exact Int.le_total x y
    | infinity n => cases n <;> simp [JSDouble.leB]
  | infinity m =>
    cases b with
    | int y => cases m <;> simp [JSDouble.leB]
    | infinity n => cases m <;> cases n <;> simp [JSDouble.leB]

theorem JSDouble.le_trans (a b c : JSDouble) (hab : a ≤ b) (hbc : b ≤ c) : a ≤ c := by
  rw [JSDouble.le_iff] at hab hbc ⊢
  cases a with
  | int x =>
    cases b with
    | int y =>
      cases c with
      | int z =>
        simp only [JSDouble.leB, decide_eq_true_eq] at hab hbc ⊢
        exact Int.le_trans hab hbc
      | infinity n => simpa [JSDouble.leB] using hbc
    | infinity m =>
      cases c with
      | int z => cases m <;> simp [JSDouble.leB] at hab hbc
      | infinity n => cases m <;> cases n <;> simp [JSDouble.leB] at hab hbc ⊢
  | infinity k =>
    cases b with
    | int y =>
      cases c with
      | int z => simpa [JSDouble.leB] using hab
      | infinity n => cases k <;> cases n <;> simp [JSDouble.leB] at hab hbc ⊢
    | infinity m =>
      cases c with
      | int z => cases k <;> cases m <;> simp [JSDouble.leB] at hab hbc ⊢
      | infinity n => cases k <;> cases m <;> cases n <;> simp [JSDouble.leB] at hab hbc ⊢

theorem sortDescending_perm (xs : List JSDouble) : List.Perm (sortDescending xs) xs :=
  List.perm_insertionSort _ xs

theorem sortDescending_sorted (xs : List JSDouble) :
    List.Sorted (fun a b : JSDouble => b ≤ a) (sortDescending xs) := by
  have htotal : IsTotal JSDouble (fun a b : JSDouble => b ≤ a) :=
    ⟨fun a b => JSDouble.le_total b a⟩
  have htrans : IsTrans JSDouble (fun a b : JSDouble => b ≤ a) :=
    ⟨fun a b c hab hbc => JSDouble.le_trans c b a hbc hab⟩
  exact List.sorted_insertionSort _ xs

/-- The three leading entries of the sorted array are the largest, second
largest and third largest of the numbers sorted. -/
theorem sortDescending_top3 (xs : List JSDouble) (h : 3 ≤ xs.length) :
    ∃ p r c rest, sortDescending xs = p :: r :: c :: rest ∧ List.Perm xs (p :: r :: c :: rest) ∧
      r ≤ p ∧ c ≤ r ∧ ∀ x ∈ rest, x ≤ c := by
  have hlen : (sortDescending xs).length = xs.length := (sortDescending_perm xs).length_eq
  have hsorted := sortDescending_sorted xs
  have hperm := sortDescending_perm xs
  revert hlen hsorted hperm
  generalize sortDescending xs = ys
  intro hlen hsorted hperm
  match ys, hlen, hsorted, hperm with
  | [], hlen, _, _ => simp at hlen; omega
  | [_], hlen, _, _ => simp at hlen; omega
  | [_, _], hlen, _, _ => simp at hlen; omega
  | p :: r :: c :: rest, _, hsorted, hperm =>
    refine ⟨p, r, c, rest, rfl, hperm.symm, ?_, ?_, ?_⟩
    · simp only [List.sorted_cons, List.mem_cons] at hsorted
      exact hsorted.1 r (Or.inl rfl)
    · simp only [List.sorted_cons, List.mem_cons] at hsorted
      exact hsorted.2.1 c (Or.inl rfl)
    · intro x hx
      simp only [List.sorted_cons, List.mem_cons] at hsorted
      exact hsorted.2.2.1 x hx

theorem positionalFallback_eq (data : MetricData) (html : List Char) :
    positionalFallback data html =
      if 3 ≤ (positiveValues ((matchAll numberPattern html).take 5)).length then
        { data with
          publications :=
            orZero (sortDescending (positiveValues ((matchAll numberPattern html).take 5)))[0]?
          reads :=
            orZero (sortDescending (positiveValues ((matchAll numberPattern html).take 5)))[1]?
          citations :=
            orZero (sortDescending (positiveValues ((matchAll numberPattern html).take 5)))[2]? }
      else data := by
  unfold positionalFallback
  simp only [parsedNumbers_eq]
  by_cases h3 : 3 ≤ (positiveValues ((matchAll numberPattern html).take 5)).length
  · have hn : 3 ≤ (matchAll numberPattern html).length := by
      have h1 := positiveValues_length_le ((matchAll numberPattern html).take 5)
      have h2 : ((matchAll numberPattern html).take 5).length
          ≤ (matchAll numberPattern html).length := by
        simp
      omega
    simp only [if_pos hn, if_pos h3]
  · simp only [if_neg h3]
    split <;> rfl

/-- The counts of `parseResearchGateData`, over the characters of the markup. -/
theorem parseResearchGateData_eq (nowISO : String) (html : String) :
    parseResearchGateData nowISO html =
      if (labeledCounts nowISO html.toList).publications = some 0 ∧
          (labeledCounts nowISO html.toList).citations = some 0 ∧
          (labeledCounts nowISO html.toList).reads = some 0 then
        positionalFallback (labeledCounts nowISO html.toList) html.toList
      else labeledCounts nowISO html.toList := rfl

theorem positional_counts_chars (nowISO : String) (s : List Char)
    (hp : publicationMatch s = none) (hc : citationMatch s = none)
    (hr : readsMatch s = none) (d : MetricData)
    (hd : d = if (labeledCounts nowISO s).publications = some 0 ∧
          (labeledCounts nowISO s).citations = some 0 ∧
          (labeledCounts nowISO s).reads = some 0 then
        positionalFallback (labeledCounts nowISO s) s
      else labeledCounts nowISO s) :
    (3 ≤ (positiveValues ((matchAll numberPattern s).take 5)).length →
      ∃ p r c rest,
        List.Perm (positiveValues ((matchAll numberPattern s).take 5)) (p :: r :: c :: rest) ∧
        r ≤ p ∧ c ≤ r ∧ (∀ x ∈ rest, x ≤ c) ∧
        d.publications = some p ∧ d.reads = some r ∧ d.citations = some c) ∧
    ((positiveValues ((matchAll numberPattern s).take 5)).length < 3 →
      d.publications = some 0 ∧ d.reads = some 0 ∧ d.citations = some 0) := by
  have hdata : labeledCounts nowISO s
      = { publications := some 0, citations := some 0, reads := some 0,
          lastUpdated := nowISO } := by
    simp [labeledCounts, hp, hc, hr]
  rw [hdata] at hd
  simp only [and_self, if_true] at hd
  rw [positionalFallback_eq] at hd
  constructor
  · intro h3
    rw [if_pos h3] at hd
    obtain ⟨p, r, c, rest, hs, hperm, h1, h2, h3⟩ := sortDescending_top3 _ h3
    rw [hs] at hd
    subst hd
    exact ⟨p, r, c, rest, hperm, h1, h2, h3, by simp [orZero], by simp [orZero],
      by simp [orZero]⟩
  · intro h3
    rw [if_neg (by omega)] at hd
    subst hd
    exact ⟨rfl, rfl, rfl⟩

/-- On markup with no labeled match the counts are a function of the positive
numbers among the first five tokens. -/
theorem positional_counts_eq (nowISO : String) (s : List Char)
    (hp : publicationMatch s = none) (hc : citationMatch s = none)
    (hr : readsMatch s = none) :
    (if (labeledCounts nowISO s).publications = some 0 ∧
          (labeledCounts nowISO s).citations = some 0 ∧
          (labeledCounts nowISO s).reads = some 0 then
        positionalFallback (labeledCounts nowISO s) s
      else labeledCounts nowISO s).counts
      = if 3 ≤ (positiveValues ((matchAll numberPattern s).take 5)).length then
          (orZero (sortDescending (positiveValues ((matchAll numberPattern s).take 5)))[0]?,
            orZero (sortDescending (positiveValues ((matchAll numberPattern s).take 5)))[2]?,
            orZero (sortDescending (positiveValues ((matchAll numberPattern s).take 5)))[1]?)
        else (some 0, some 0, some 0) := by
  have hdata : labeledCounts nowISO s
      = { publications := some 0, citations := some 0, reads := some 0,
          lastUpdated := nowISO } := by
    simp [labeledCounts, hp, hc, hr]
  rw [hdata]
  simp only [and_self, if_true]
  rw [positionalFallback_eq]
  split <;> rfl

/-- C3: for markup in which no labeled pattern matches, the counts depend only on
the first five matches of `/>\s*(\d[\d,]*)\s*</g`: two such markups with the same first
five matches get the same counts. Of the positive numbers among the five, if there are
at least three, `publications`, `reads` and `citations` are the largest, the second
largest and the third largest; if there are fewer than three, all three counts are
`0`. -/
theorem positional_counts (nowISO : String) (html : String)
    (hp : publicationMatch html.toList = none) (hc : citationMatch html.toList = none)
    (hr : readsMatch html.toList = none) :
    (3 ≤ (positiveValues ((matchAll numberPattern html.toList).take 5)).length →
      ∃ p r c rest,
        List.Perm (positiveValues ((matchAll numberPattern html.toList).take 5))
          (p :: r :: c :: rest) ∧
        r ≤ p ∧ c ≤ r ∧ (∀ x ∈ rest, x ≤ c) ∧
        (parseResearchGateData nowISO html).publications = some p ∧
        (parseResearchGateData nowISO html).reads = some r ∧
        (parseResearchGateData nowISO html).citations = some c) ∧
    ((positiveValues ((matchAll numberPattern html.toList).take 5)).length < 3 →
      (parseResearchGateData nowISO html).publications = some 0 ∧
      (parseResearchGateData nowISO html).reads = some 0 ∧
      (parseResearchGateData nowISO html).citations = some 0) ∧
    (∀ other : String, publicationMatch other.toList = none →
      citationMatch other.toList = none → readsMatch other.toList = none →
      (matchAll numberPattern other.toList).take 5
        = (matchAll numberPattern html.toList).take 5 →
      (parseResearchGateData nowISO other).counts
        = (parseResearchGateData nowISO html).counts) := by
  obtain ⟨h1, h2⟩ :=
    positional_counts_chars nowISO html.toList hp hc hr _ (parseResearchGateData_eq nowISO html)
  refine ⟨h1, h2, ?_⟩
  intro other hp2 hc2 hr2 htok
  rw [parseResearchGateData_eq, parseResearchGateData_eq,
    positional_counts_eq nowISO other.toList hp2 hc2 hr2,
    positional_counts_eq nowISO html.toList hp hc hr, htok]

theorem fromRun_counts_chars (nowISO : String) (s : List Char) (d : MetricData)
    (hd : d = if (labeledCounts nowISO s).publications = some 0 ∧
          (labeledCounts nowISO s).citations = some 0 ∧
          (labeledCounts nowISO s).reads = some 0 then
        positionalFallback (labeledCounts nowISO s) s
      else labeledCounts nowISO s) :
    FromRun s d.publications ∧ FromRun s d.citations ∧ FromRun s d.reads := by
  subst hd
  split
  · rw [positionalFallback_eq]
    split
    · rename_i h3
      obtain ⟨p, r, c, rest, hs, hperm, _, _, _⟩ := sortDescending_top3 _ h3
      have hp := positiveValues_fromRun s p (hperm.mem_iff.mpr (by simp))
      have hr := positiveValues_fromRun s r (hperm.mem_iff.mpr (by simp))
      have hc := positiveValues_fromRun s c (hperm.mem_iff.mpr (by simp))
      rw [hs]
      exact ⟨by simpa [orZero] using hp, by simpa [orZero] using hc,
        by simpa [orZero] using hr⟩
    · exact labeledCounts_fromRun nowISO s
  · exact labeledCounts_fromRun nowISO s

/-- Every count `parseResearchGateData` returns is `0` or is read from a run of
digits and commas of the markup. -/
theorem parseResearchGateData_fromRun (nowISO : String) (html : String) :
    FromRun html.toList (parseResearchGateData nowISO html).publications ∧
    FromRun html.toList (parseResearchGateData nowISO html).citations ∧
    FromRun html.toList (parseResearchGateData nowISO html).reads :=
  fromRun_counts_chars nowISO html.toList _ (parseResearchGateData_eq nowISO html)

set_option exponentiation.threshold 2000 in
set_option maxRecDepth 100000 in
theorem positional_counts_witness :
    positiveValues ((matchAll numberPattern sampleTable.toList).take 5)
        = [50, 16593, 1041, 12, 3] ∧
      (∃ p r c rest,
        List.Perm (positiveValues ((matchAll numberPattern sampleTable.toList).take 5))
          (p :: r :: c :: rest) ∧
        r ≤ p ∧ c ≤ r ∧ (∀ x ∈ rest, x ≤ c) ∧
        (parseResearchGateData "2024-01-01T01:00:00.000Z" sampleTable).publications = some p ∧
        (parseResearchGateData "2024-01-01T01:00:00.000Z" sampleTable).reads = some r ∧
        (parseResearchGateData "2024-01-01T01:00:00.000Z" sampleTable).citations = some c) ∧
      (parseResearchGateData "2024-01-01T01:00:00.000Z" sampleTable).publications
        = some 16593 ∧
      (parseResearchGateData "2024-01-01T01:00:00.000Z" sampleTable).reads = some 1041 ∧
      (parseResearchGateData "2024-01-01T01:00:00.000Z" sampleTable).citations = some 50 :=
  ⟨by rfl,
    (positional_counts "2024-01-01T01:00:00.000Z" sampleTable (by rfl) (by rfl) (by rfl)).1
      (by decide),
    by rfl, by rfl, by rfl⟩

set_option exponentiation.threshold 2000 in
set_option maxRecDepth 100000 in
/-- C4, the behaviour of the code: the publication patterns capture digits only, so
`1,234 Publications` gives `publications = 234`, the digits after the
separator, while `1,041 Citations` gives `citations = 1041` and `16,593 Reads` gives
`reads = 16593`. -/
theorem publications_drop_thousands (nowISO : String) :
    (parseResearchGateData nowISO "1,234 Publications").publications = some 234 ∧
      (parseResearchGateData nowISO "1,041 Citations").citations = some 1041 ∧
      (parseResearchGateData nowISO "16,593 Reads").reads = some 16593 :=
  ⟨by rfl, by rfl, by rfl⟩

set_option exponentiation.threshold 2000 in
set_option maxRecDepth 100000 in
/-- C2, the claim fails: the three markups below contain `Publications (105)`,
`1,041 Citations` and `Reads`, then text, then `16,593`. In the first
(`profileMarkup`), the first citation pattern runs from `Citations` over the next `>`
to the number of reads, and `citations` is 16593; in the second there is no `>` after
`Reads` and no number before it, and `reads` is 0; in the third (`repeatedMarkup`)
each pattern has a match that begins further left, and the counts are 1, 2 and 3. -/
theorem labeled_counts_not_as_claimed :
    (parseResearchGateData "2024-01-01T01:00:00.000Z" profileMarkup).counts
        = (some 105, some 16593, some 16593) ∧
      (parseResearchGateData "2024-01-01T01:00:00.000Z"
        "Publications (105) 1,041 Citations Reads ... 16,593").counts
        = (some 105, some 1041, some 0) ∧
      (parseResearchGateData "2024-01-01T01:00:00.000Z" repeatedMarkup).counts
        = (some 1, some 2, some 3) :=
  ⟨by rfl, by rfl, by rfl⟩

/-! ### The matcher on the leftmost match -/

theorem greedyStar_append_some (p : Char → Bool) (k : List Char → Option Match)
    (run s : List Char) (m : Match) (hrun : ∀ x ∈ run, p x = true)
    (h : greedyStar p k s = some m) : greedyStar p k (run ++ s) = some m := by
  induction run with
  | nil => exact h
  | cons x run ih =>
    rw [List.cons_append, greedyStar, if_pos (hrun x (by simp)),
      ih (fun y hy => hrun y (by simp [hy]))]

/-- A greedy star takes a whole run when the continuation matches after it. -/
theorem greedyStar_run (p : Char → Bool) (k : List Char → Option Match)
    (run s : List Char) (m : Match) (hrun : ∀ x ∈ run, p x = true)
    (hstop : ∀ x ∈ s.head?, p x = false) (hk : k s = some m) :
    greedyStar p k (run ++ s) = some m := by
  apply greedyStar_append_some p k run s m hrun
  cases s with
  | nil => simpa [greedyStar] using hk
  | cons x s =>
    rw [greedyStar, if_neg (by simp [hstop x (by simp)])]
    exact hk

theorem lazyStar_skip (p : Char → Bool) (k : List Char → Option Match) (a s : List Char)
    (hp : ∀ x ∈ a, p x = true) (hk : ∀ x ∈ a, ∀ u, k (x :: u) = none) :
    lazyStar p k (a ++ s) = lazyStar p k s := by
  induction a with
  | nil => rfl
  | cons x a ih =>
    rw [List.cons_append, lazyStar, hk x (by simp), if_pos (hp x (by simp))]
    exact ih (fun y hy => hp y (by simp [hy])) (fun y hy => hk y (by simp [hy]))

theorem lazyStar_of_some (p : Char → Bool) (k : List Char → Option Match) (s : List Char)
    (m : Match) (h : k s = some m) : lazyStar p k s = some m := by
  cases s with
  | nil => simpa [lazyStar] using h
  | cons x s => simp [lazyStar, h]

theorem group1_append (g s rest : List Char) :
    Match.group1 { groupStart := g ++ s, groupEnd := s, rest := rest } = g := by
  simp [Match.group1]

/-- A literal under the `i` flag is matched on any text of its language. -/
theorem matchHere_litI (ps : List Char) (r : Regex) :
    ∀ lab s : List Char, Accepts (ps.map (fun p => RNode.chr (isCharI p))) lab →
      matchHere (ps.map (fun p => RNode.chr (isCharI p)) ++ r) (lab ++ s) = matchHere r s := by
  induction ps with
  | nil =>
    intro lab s h
    simp only [List.map_nil, Accepts] at h
    subst h
    rfl
  | cons p ps ih =>
    intro lab s h
    simp only [List.map_cons, Accepts] at h
    obtain ⟨c, g1, hlab, hc, hg1⟩ := h
    subst hlab
    simp only [List.map_cons, List.cons_append, matchHere, if_pos hc]
    exact ih g1 s hg1

/-- A character that a letter of a pattern matches under the `i` flag is neither
white space nor a digit nor a comma. -/
theorem letter_facts (p x : Char) (hp : 65 ≤ asciiUpper p.toNat ∧ asciiUpper p.toNat ≤ 90)
    (h : isCharI p x = true) : isSpace x = false ∧ isDigitOrComma x = false := by
  simp only [isCharI, beq_iff_eq] at h
  rw [← h] at hp
  have hx : (65 ≤ x.toNat ∧ x.toNat ≤ 90) ∨ (97 ≤ x.toNat ∧ x.toNat ≤ 122) := by
    simp only [asciiUpper] at hp
    split at hp <;> omega
  constructor
  · simp only [isSpace, Bool.or_eq_false_iff, Bool.and_eq_false_iff, decide_eq_false_iff_not,
      beq_eq_false_iff_ne]
    omega
  · simp only [isDigitOrComma, isDigit, isChar, Bool.or_eq_false_iff, Bool.and_eq_false_iff,
      decide_eq_false_iff_not, beq_eq_false_iff_ne]
    have : (',' : Char).toNat = 44 := rfl
    omega

/-- The first character of a text that a literal matches. -/
theorem accepts_litI_head (l0 : Char) (ls lab : List Char)
    (h : Accepts ((l0 :: ls).map (fun p => RNode.chr (isCharI p))) lab) :
    ∃ c rest, lab = c :: rest ∧ isCharI l0 c = true := by
  simp only [List.map_cons, Accepts] at h
  obtain ⟨c, g1, hlab, hc, _⟩ := h
  exact ⟨c, g1, hlab, hc⟩

/-- A capture group around a digit and a greedy class takes the whole run. -/
theorem matchHere_group_run (q : Char → Bool) (post : Regex) (g s : List Char) (m0 : Match)
    (hg : Accepts [RNode.chr isDigit, RNode.star q] g) (hstop : ∀ x ∈ s.head?, q x = false)
    (hpost : matchHere post s = some m0) :
    matchHere (group [RNode.chr isDigit, RNode.star q] ++ post) (g ++ s)
      = some { groupStart := g ++ s, groupEnd := s, rest := m0.rest } := by
  obtain ⟨d, g1, hgd, hd, run, g2, hg1, hrun, hg2⟩ := hg
  simp only [Accepts] at hg2
  subst hg2 hg1 hgd
  have hk : matchHere (RNode.groupClose :: post) s
      = some { groupStart := m0.groupStart, groupEnd := s, rest := m0.rest } := by
    simp [matchHere, hpost]
  have hstar := greedyStar_run q (matchHere (RNode.groupClose :: post)) run s _ hrun hstop hk
  have h1 : matchHere (RNode.chr isDigit :: RNode.star q :: RNode.groupClose :: post)
      (d :: (run ++ s))
      = some { groupStart := m0.groupStart, groupEnd := s, rest := m0.rest } := by
    rw [matchHere, if_pos hd, matchHere]
    exact hstar
  simp only [List.append_nil]
  show Option.map _ (matchHere (RNode.chr isDigit :: RNode.star q :: RNode.groupClose :: post)
    (d :: (run ++ s))) = _
  rw [h1]
  rfl

/-- Where `PublicationFirst` holds, the publication patterns capture `g`. -/
theorem publicationMatch_of_first (html g : List Char) (h : PublicationFirst html g) :
    ∃ m, publicationMatch html = some m ∧ m.group1 = g := by
  obtain ⟨a, lab, ws, t, hhtml, hno, hlab, hws, hg⟩ := h
  subst hhtml
  have hpost : matchHere [RNode.chr (isCharI ')')] (')' :: t)
      = some { groupStart := [], groupEnd := [], rest := t } := rfl
  have hgroup := matchHere_group_run isDigit [RNode.chr (isCharI ')')] g (')' :: t) _ hg
    (by simp; rfl) hpost
  have hparen : matchHere (RNode.chr (isCharI '(') :: (group digits ++ [RNode.chr (isCharI ')')]))
      ('(' :: (g ++ ')' :: t))
      = some { groupStart := g ++ ')' :: t, groupEnd := ')' :: t, rest := t } := by
    rw [matchHere, if_pos (show isCharI '(' '(' = true from rfl)]
    exact hgroup
  have hstar := greedyStar_run isSpace
    (matchHere (RNode.chr (isCharI '(') :: (group digits ++ [RNode.chr (isCharI ')')])))
    ws ('(' :: (g ++ ')' :: t)) _ hws (by simp; rfl) hparen
  have hhere : matchHere publicationPattern1 (lab ++ (ws ++ '(' :: (g ++ ')' :: t)))
      = some { groupStart := g ++ ')' :: t, groupEnd := ')' :: t, rest := t } := by
    have e : publicationPattern1 = "Publications".toList.map (fun p => RNode.chr (isCharI p)) ++
        (RNode.star isSpace :: RNode.chr (isCharI '(') ::
          (group digits ++ [RNode.chr (isCharI ')')])) := by
      simp [publicationPattern1, litI]
    rw [e, matchHere_litI _ _ lab _ hlab, matchHere]
    exact hstar
  refine ⟨_, ?_, group1_append g (')' :: t) t⟩
  unfold publicationMatch
  rw [search_of_noMatchIn _ a _ hno, search_of_some _ _ _ hhere]
  rfl

/-- Where `LabelThenRun` holds, the pattern captures `g`. -/
theorem search_of_labelThenRun (label : String) (re : Regex) (html g : List Char)
    (hre : re = litI label ++ [RNode.star (notChar '>'), RNode.chr (isCharI '>'),
      RNode.lazyStar anyChar] ++ group digitRun)
    (h : LabelThenRun label re html g) :
    ∃ m, search re html = some m ∧ m.group1 = g := by
  obtain ⟨a, lab, c1, c2, t, hhtml, hno, hlab, hc1, hc2, hg, ht⟩ := h
  subst hhtml
  have hrun : matchHere (group digitRun) (g ++ t)
      = some { groupStart := g ++ t, groupEnd := t, rest := t } := by
    have := matchHere_group_run isDigitOrComma [] g t ⟨[], [], t⟩ hg ht rfl
    simpa using this
  have hlazy : lazyStar anyChar (matchHere (group digitRun)) (c2 ++ (g ++ t))
      = some { groupStart := g ++ t, groupEnd := t, rest := t } := by
    rw [lazyStar_skip anyChar _ c2 _ (fun _ _ => rfl)
      (fun x hx u => by simp [group, digitRun, matchHere, hc2 x hx])]
    exact lazyStar_of_some _ _ _ _ hrun
  have hgt : matchHere (RNode.chr (isCharI '>') :: RNode.lazyStar anyChar :: group digitRun)
      ('>' :: (c2 ++ (g ++ t)))
      = some { groupStart := g ++ t, groupEnd := t, rest := t } := by
    rw [matchHere, if_pos (show isCharI '>' '>' = true from rfl), matchHere]
    exact hlazy
  have hstar := greedyStar_run (notChar '>')
    (matchHere (RNode.chr (isCharI '>') :: RNode.lazyStar anyChar :: group digitRun))
    c1 ('>' :: (c2 ++ (g ++ t))) _ hc1 (by simp; rfl) hgt
  have hhere : matchHere re (lab ++ (c1 ++ '>' :: (c2 ++ (g ++ t))))
      = some { groupStart := g ++ t, groupEnd := t, rest := t } := by
    have e : re = label.toList.map (fun p => RNode.chr (isCharI p)) ++
        (RNode.star (notChar '>') :: RNode.chr (isCharI '>') :: RNode.lazyStar anyChar ::
          group digitRun) := by
      rw [hre]
      simp [litI]
    rw [e, matchHere_litI _ _ lab _ hlab, matchHere]
    exact hstar
  refine ⟨_, ?_, group1_append g t t⟩
  rw [search_of_noMatchIn _ a _ hno, search_of_some _ _ _ hhere]

/-- Where `RunThenLabel` holds, the pattern captures `g`. -/
theorem search_of_runThenLabel (label : String) (re : Regex) (html g : List Char)
    (l0 : Char) (ls : List Char) (hlabel : label.toList = l0 :: ls)
    (hl0 : 65 ≤ asciiUpper l0.toNat ∧ asciiUpper l0.toNat ≤ 90)
    (hre : re = group digitRun ++ [RNode.star isSpace] ++ litI label)
    (h : RunThenLabel label re html g) :
    ∃ m, search re html = some m ∧ m.group1 = g := by
  obtain ⟨a, ws, lab, t, hhtml, hno, hg, hws, hlab⟩ := h
  subst hhtml
  have hlab1 : Accepts ((l0 :: ls).map (fun p => RNode.chr (isCharI p))) lab := by
    rw [← hlabel]
    exact hlab
  obtain ⟨c, rest, hlabc, hc⟩ := accepts_litI_head l0 ls lab hlab1
  obtain ⟨hsp, hdc⟩ := letter_facts l0 c hl0 hc
  have hlit : matchHere (litI label) (lab ++ t)
      = some { groupStart := [], groupEnd := [], rest := t } := by
    have := matchHere_litI label.toList [] lab t hlab
    simp only [List.append_nil] at this
    rw [litI, this]
    rfl
  have hstar : greedyStar isSpace (matchHere (litI label)) (ws ++ (lab ++ t))
      = some { groupStart := [], groupEnd := [], rest := t } :=
    greedyStar_run isSpace _ ws (lab ++ t) _ hws (by simp [hlabc, hsp]) hlit
  have hpost : matchHere (RNode.star isSpace :: litI label) (ws ++ (lab ++ t))
      = some { groupStart := [], groupEnd := [], rest := t } := by
    rw [matchHere]
    exact hstar
  have hstop : ∀ x ∈ (ws ++ (lab ++ t)).head?, isDigitOrComma x = false := by
    intro x hx
    cases ws with
    | nil =>
      simp only [List.nil_append, hlabc, List.cons_append, List.head?_cons, Option.mem_def,
        Option.some.injEq] at hx
      rw [← hx]
      exact hdc
    | cons w ws =>
      simp only [List.cons_append, List.head?_cons, Option.mem_def, Option.some.injEq] at hx
      rw [← hx]
      have hw := hws w (by simp)
      cases hd : isDigitOrComma w with
      | false => rfl
      | true =>
        simp only [isDigitOrComma, Bool.or_eq_true] at hd
        rcases hd with hd | hd
        · rw [digit_not_space w hd] at hw
          exact absurd hw (by simp)
        · simp only [isChar, beq_iff_eq] at hd
          have : (',' : Char).toNat = 44 := rfl
          simp only [isSpace, Bool.or_eq_true, Bool.and_eq_true, decide_eq_true_eq,
            beq_iff_eq] at hw
          omega
  have hhere : matchHere re (g ++ (ws ++ (lab ++ t)))
      = some { groupStart := g ++ (ws ++ (lab ++ t)), groupEnd := ws ++ (lab ++ t),
               rest := t } := by
    have e : re = group digitRun ++ (RNode.star isSpace :: litI label) := by
      rw [hre]
      simp
    rw [e]
    exact matchHere_group_run isDigitOrComma _ g _ _ hg hstop hpost
  refine ⟨_, ?_, group1_append g (ws ++ (lab ++ t)) t⟩
  rw [search_of_noMatchIn _ a _ hno, search_of_some _ _ _ hhere]

theorem citationMatch_of_first (html g : List Char)
    (h : LabelThenRun "Citations" citationPattern1 html g ∨
      (NoMatch citationPattern1 html ∧ RunThenLabel "Citations" citationPattern2 html g)) :
    ∃ m, citationMatch html = some m ∧ m.group1 = g := by
  rcases h with h | ⟨hnone, h⟩
  · obtain ⟨m, hm, hg⟩ := search_of_labelThenRun "Citations" citationPattern1 html g rfl h
    exact ⟨m, by unfold citationMatch; rw [hm]; rfl, hg⟩
  · obtain ⟨m, hm, hg⟩ := search_of_runThenLabel "Citations" citationPattern2 html g
      'C' "itations".toList rfl (by decide) rfl h
    refine ⟨m, ?_, hg⟩
    unfold citationMatch
    rw [search_none_of_noMatch _ _ hnone, hm]
    rfl

theorem readsMatch_of_first (html g : List Char)
    (h : LabelThenRun "Reads" readsPattern1 html g ∨
      (NoMatch readsPattern1 html ∧ RunThenLabel "Reads" readsPattern2 html g)) :
    ∃ m, readsMatch html = some m ∧ m.group1 = g := by
  rcases h with h | ⟨hnone, h⟩
  · obtain ⟨m, hm, hg⟩ := search_of_labelThenRun "Reads" readsPattern1 html g rfl h
    exact ⟨m, by unfold readsMatch; rw [hm]; rfl, hg⟩
  · obtain ⟨m, hm, hg⟩ := search_of_runThenLabel "Reads" readsPattern2 html g
      'R' "eads".toList rfl (by decide) rfl h
    refine ⟨m, ?_, hg⟩
    unfold readsMatch
    rw [search_none_of_noMatch _ _ hnone, hm]
    rfl

/-- A text is in the language of a literal under the `i` flag when it is the
literal up to the case of ASCII letters. -/
theorem accepts_litI (ps : List Char) :
    ∀ lab : List Char, lab.map (fun c => asciiUpper c.toNat) = ps.map (fun c => asciiUpper c.toNat) →
      Accepts (ps.map (fun p => RNode.chr (isCharI p))) lab := by
  induction ps with
  | nil =>
    intro lab h
    simp only [List.map_nil, List.map_eq_nil_iff] at h
    subst h
    rfl
  | cons p ps ih =>
    intro lab h
    cases lab with
    | nil => simp at h
    | cons c lab =>
      simp only [List.map_cons, List.cons.injEq] at h
      exact ⟨c, lab, rfl, by simp [isCharI, h.1], ih lab h.2⟩

theorem accepts_run (q : Char → Bool) (d : Char) (run : List Char) (hd : isDigit d = true)
    (hrun : ∀ x ∈ run, q x = true) : Accepts [RNode.chr isDigit, RNode.star q] (d :: run) :=
  ⟨d, run, rfl, hd, run, [], by simp, hrun, rfl⟩

/-- C2 as amended: `parseResearchGateData` returns publications 105, citations 1041
and reads 16593 for every markup in which each count is where the code looks first.
Publications: the leftmost text that `/Publications\s*\((\d+)\)/i` can match has digits
that read 105. Citations: the leftmost text that `/Citations[^>]*>[\s\S]*?(\d[\d,]*)/i`
can match (the label, text up to the first `>`, text without a digit, a run of digits and
commas) has a run that reads 1041, or no text matches that pattern and the leftmost
text that `/(\d[\d,]*)\s*Citations/i` can match has such a run. Reads: the same with the
label `Reads` and 16593. -/
theorem labeled_counts_first_match (nowISO : String) (html : String) (gp gc gr : List Char)
    (hp : PublicationFirst html.toList gp) (hpv : parseInt gp = some 105)
    (hc : LabelThenRun "Citations" citationPattern1 html.toList gc ∨
      (NoMatch citationPattern1 html.toList ∧
        RunThenLabel "Citations" citationPattern2 html.toList gc))
    (hcv : parseInt (removeCommas gc) = some 1041)
    (hr : LabelThenRun "Reads" readsPattern1 html.toList gr ∨
      (NoMatch readsPattern1 html.toList ∧
        RunThenLabel "Reads" readsPattern2 html.toList gr))
    (hrv : parseInt (removeCommas gr) = some 16593) :
    (parseResearchGateData nowISO html).counts = (some 105, some 1041, some 16593) := by
  obtain ⟨mp, hmp, hgp⟩ := publicationMatch_of_first html.toList gp hp
  obtain ⟨mc, hmc, hgc⟩ := citationMatch_of_first html.toList gc hc
  obtain ⟨mr, hmr, hgr⟩ := readsMatch_of_first html.toList gr hr
  have hl : labeledCounts nowISO html.toList
      = { publications := some 105, citations := some 1041, reads := some 16593,
          lastUpdated := nowISO } := by
    unfold labeledCounts
    rw [hmp, hmc, hmr]
    simp only [hgp, hgc, hgr, hpv, hcv, hrv]
  rw [parseResearchGateData_eq, hl]
  rfl

set_option exponentiation.threshold 2000 in
set_option maxRecDepth 100000 in
theorem labeled_counts_first_match_witness :
    PublicationFirst taggedMarkup.toList "105".toList ∧
      NoMatch citationPattern1 taggedMarkup.toList ∧
      RunThenLabel "Citations" citationPattern2 taggedMarkup.toList "1,041".toList ∧
      LabelThenRun "Reads" readsPattern1 taggedMarkup.toList "16,593".toList ∧
      (parseResearchGateData "2024-01-01T01:00:00.000Z" taggedMarkup).counts
        = (some 105, some 1041, some 16593) :=
  have hp : PublicationFirst taggedMarkup.toList "105".toList :=
    ⟨"<span>".toList, "Publications".toList, " ".toList,
      ("</span><span>Reads</span><span>16,593</span>" ++ "<span>1,041 Citations</span>").toList,
      by rfl, noMatchIn_of_noneBefore _ _ _ (by rfl), accepts_litI _ _ (by rfl), by decide,
      accepts_run isDigit '1' "05".toList (by decide) (by decide)⟩
  have hc0 : NoMatch citationPattern1 taggedMarkup.toList :=
    noMatch_of_search_none _ _ (by rfl)
  have hc : RunThenLabel "Citations" citationPattern2 taggedMarkup.toList "1,041".toList :=
    ⟨"<span>Publications (105)</span><span>Reads</span><span>16,593</span><span>".toList,
      " ".toList, "Citations".toList, "</span>".toList, by rfl,
      noMatchIn_of_noneBefore _ _ _ (by rfl),
      accepts_run isDigitOrComma '1' ",041".toList (by decide) (by decide), by decide,
      accepts_litI _ _ (by rfl)⟩
  have hr : LabelThenRun "Reads" readsPattern1 taggedMarkup.toList "16,593".toList :=
    ⟨"<span>Publications (105)</span><span>".toList, "Reads".toList, "</span".toList,
      "<span>".toList, "</span><span>1,041 Citations</span>".toList, by rfl,
      noMatchIn_of_noneBefore _ _ _ (by rfl), accepts_litI _ _ (by rfl), by decide, by decide,
      accepts_run isDigitOrComma '1' "6,593".toList (by decide) (by decide), by decide⟩
  ⟨hp, hc0, hc, hr,
    labeled_counts_first_match "2024-01-01T01:00:00.000Z" taggedMarkup "105".toList
      "1,041".toList "16,593".toList hp (by rfl) (Or.inr ⟨hc0, hc⟩) (by rfl) (Or.inl hr)
      (by rfl)⟩

/-! ## The transport, the cache and the orchestrator -/

theorem fetchLoop_cons (env : Env) (url p : String) (rest requests : List String) :
    fetchLoop env url (p :: rest) requests
      = match relayText env (requestUrl url p) with
        | some text => (Except.ok text, requests ++ [requestUrl url p])
        | none => fetchLoop env url rest (requests ++ [requestUrl url p]) := by
  rw [fetchLoop]
  unfold relayText requestUrl
  cases hf : env.fetch (p ++ encodeURIComponent url) with
  | error e => rfl
  | ok response =>
    cases hok : response.ok with
    | false => simp [hok]
    | true =>
      cases ht : response.text with
      | error e => simp [hok, ht]
      | ok text => simp [hok, ht]

theorem fetchLoop_cons_fail (env : Env) (url p : String) (rest requests : List String)
    (h : relayText env (requestUrl url p) = none) :
    fetchLoop env url (p :: rest) requests
      = fetchLoop env url rest (requests ++ [requestUrl url p]) := by
  rw [fetchLoop_cons, h]

theorem fetchLoop_cons_ok (env : Env) (url p text : String) (rest requests : List String)
    (h : relayText env (requestUrl url p) = some text) :
    fetchLoop env url (p :: rest) requests = (Except.ok text, requests ++ [requestUrl url p]) := by
  rw [fetchLoop_cons, h]

theorem fetchLoop_spec (env : Env) (url : String) (proxies : List String) :
    ∀ requests : List String,
      (∃ pre p post text, proxies = pre ++ p :: post ∧
          (∀ q ∈ pre, relayText env (requestUrl url q) = none) ∧
          relayText env (requestUrl url p) = some text ∧
          fetchLoop env url proxies requests
            = (Except.ok text, requests ++ (pre ++ [p]).map (requestUrl url))) ∨
      ((∀ q ∈ proxies, relayText env (requestUrl url q) = none) ∧
          fetchLoop env url proxies requests
            = (Except.error (JSError.error "All CORS proxies failed"),
                requests ++ proxies.map (requestUrl url))) := by
  induction proxies with
  | nil =>
    intro requests
    right
    exact ⟨by simp, by simp [fetchLoop]⟩
  | cons p rest ih =>
    intro requests
    cases hp : relayText env (requestUrl url p) with
    | some text =>
      left
      exact ⟨[], p, rest, text, rfl, by simp, hp, by simp [fetchLoop_cons_ok env url p text rest requests hp]⟩
    | none =>
      rw [fetchLoop_cons_fail env url p rest requests hp]
      rcases ih (requests ++ [requestUrl url p]) with ⟨pre, q, post, text, hsplit, hpre, hq, hres⟩ | ⟨hall, hres⟩
      · left
        refine ⟨p :: pre, q, post, text, by simp [hsplit], ?_, hq, ?_⟩
        · intro x hx
          rcases List.mem_cons.mp hx with rfl | hx
          · exact hp
          · exact hpre x hx
        · rw [hres]; simp
      · right
        refine ⟨?_, ?_⟩
        · intro x hx
          rcases List.mem_cons.mp hx with rfl | hx
          · exact hp
          · exact hall x hx
        · rw [hres]; simp

theorem getCachedData_of_fresh (env : Env) (w : World) (data : JVal)
    (h : FreshEntry env w data) : getCachedData env w = some data := by
  obtain ⟨hc, fields, v, t, hobj, hl, hd, hlt⟩ := h
  subst hobj
  simp [getCachedData, getCachedDataTry, hc, Stored.truthy, JSONparse, JVal.property, hl, hd, hlt]

theorem fresh_of_getCachedData (env : Env) (w : World) (data : JVal)
    (h : getCachedData env w = some data) : FreshEntry env w data := by
  unfold getCachedData getCachedDataTry at h
  rcases w with ⟨cache, requests⟩
  cases cache with
  | none => simp at h
  | some cached =>
    cases cached with
    | empty => simp [Stored.truthy] at h
    | malformed => simp [Stored.truthy, JSONparse] at h
    | json v =>
      cases v with
      | null => simp [Stored.truthy, JSONparse, JVal.property] at h
      | bool b => simp [Stored.truthy, JSONparse, JVal.property] at h
      | num n => simp [Stored.truthy, JSONparse, JVal.property] at h
      | str s => simp [Stored.truthy, JSONparse, JVal.property] at h
      | arr items => simp [Stored.truthy, JSONparse, JVal.property] at h
      | obj fields =>
        simp only [Stored.truthy, JSONparse, JVal.property, if_true] at h
        cases hl : fields.lookup "lastUpdated" with
        | none => simp [hl] at h
        | some x =>
          simp only [hl] at h
          cases hd : env.dateTime x with
          | error e => simp [hd] at h
          | ok r =>
            cases r with
            | none => simp [hd] at h
            | some t =>
              simp only [hd] at h
              by_cases hfresh : env.now - t < CONFIG.cacheExpiry
              · simp only [if_pos hfresh, Option.some.injEq] at h
                subst h
                exact ⟨rfl, fields, x, t, rfl, hl, hd, hfresh⟩
              · simp [if_neg hfresh] at h

theorem getCachedData_eq_some_iff (env : Env) (w : World) (data : JVal) :
    getCachedData env w = some data ↔ FreshEntry env w data :=
  ⟨fresh_of_getCachedData env w data, getCachedData_of_fresh env w data⟩

theorem lookup_setField_self (key : String) (v : JVal) (fields : List (String × JVal)) :
    (setField key v fields).lookup key = some v := by
  induction fields with
  | nil => simp [setField, List.lookup]
  | cons kv rest ih =>
    rcases kv with ⟨k, x⟩
    by_cases h : k = key
    · subst h
      simp [setField, List.lookup]
    · have h2 : (key == k) = false := by
        simpa using fun e => h e.symm
      simp [setField, h, List.lookup, h2, ih]

theorem lookup_setField_ne (key other : String) (v : JVal) (fields : List (String × JVal))
    (hne : other ≠ key) : (setField key v fields).lookup other = fields.lookup other := by
  induction fields with
  | nil =>
    have h2 : (other == key) = false := by simpa using hne
    simp [setField, List.lookup, h2]
  | cons kv rest ih =>
    rcases kv with ⟨k, x⟩
    by_cases h : k = key
    · subst h
      have h2 : (other == k) = false := by simpa using hne
      simp [setField, List.lookup, h2]
    · simp only [setField, h, if_false, List.lookup]
      cases (other == k) <;> simp [ih]

theorem fetchWithProxy_cache (env : Env) (url : String) (w : World) :
    (fetchWithProxy env url w).2.cache = w.cache := rfl

theorem fetchWithProxy_result_indep (env : Env) (url : String) (w w1 : World) :
    (fetchWithProxy env url w).1 = (fetchWithProxy env url w1).1 := by
  unfold fetchWithProxy
  simp only
  generalize CONFIG.corsProxies = proxies
  generalize w.requests = r1
  generalize w1.requests = r2
  induction proxies generalizing r1 r2 with
  | nil => simp [fetchLoop]
  | cons p rest ih =>
    rw [fetchLoop_cons, fetchLoop_cons]
    cases relayText env (requestUrl url p) with
    | none => exact ih _ _
    | some text => rfl

/-- C9: `fetchWithProxy(url)` contacts the relays of `CONFIG.corsProxies` in list
order, each one only after all the earlier ones failed; it resolves with the text of
the first relay that delivers one, having contacted none after it, and it throws
exactly when every relay failed, having contacted them all. -/
theorem fetchWithProxy_sequential (env : Env) (url : String) (w : World) :
    (∃ pre p post text, CONFIG.corsProxies = pre ++ p :: post ∧
        (∀ q ∈ pre, relayText env (requestUrl url q) = none) ∧
        relayText env (requestUrl url p) = some text ∧
        (fetchWithProxy env url w).1 = Except.ok text ∧
        (fetchWithProxy env url w).2.requests
          = w.requests ++ (pre ++ [p]).map (requestUrl url)) ∨
    ((∀ q ∈ CONFIG.corsProxies, relayText env (requestUrl url q) = none) ∧
        (fetchWithProxy env url w).1
          = Except.error (JSError.error "All CORS proxies failed") ∧
        (fetchWithProxy env url w).2.requests
          = w.requests ++ CONFIG.corsProxies.map (requestUrl url)) := by
  rcases fetchLoop_spec env url CONFIG.corsProxies w.requests with
    ⟨pre, p, post, text, hsplit, hpre, hp, hres⟩ | ⟨hall, hres⟩
  · left
    exact ⟨pre, p, post, text, hsplit, hpre, hp, by simp [fetchWithProxy, hres],
      by simp [fetchWithProxy, hres]⟩
  · right
    exact ⟨hall, by simp [fetchWithProxy, hres], by simp [fetchWithProxy, hres]⟩

theorem fetchWithProxy_sequential_witness :
    fetchWithProxy (sampleEnv "12 Publications" false) CONFIG.researchGateUrl
        { cache := none, requests := [] }
      = (Except.ok "12 Publications",
          { cache := none,
            requests :=
              ["https://api.allorigins.win/raw?url=https%3A%2F%2Fwww.researchgate.net%2Fprofile%2FWu-Hanshuo",
                "https://corsproxy.io/?https%3A%2F%2Fwww.researchgate.net%2Fprofile%2FWu-Hanshuo"] }) := by
  rcases fetchWithProxy_sequential (sampleEnv "12 Publications" false) CONFIG.researchGateUrl
    { cache := none, requests := [] } with _ | _ <;> rfl

theorem fetchWithProxy_requests (env : Env) (url : String) (w : World) :
    ∃ more, (fetchWithProxy env url w).2.requests
      = w.requests ++ requestUrl url "https://api.allorigins.win/raw?url=" :: more := by
  unfold fetchWithProxy CONFIG.corsProxies
  simp only
  rw [fetchLoop_cons]
  cases relayText env (requestUrl url "https://api.allorigins.win/raw?url=") with
  | some text => exact ⟨[], rfl⟩
  | none =>
    simp only
    rcases fetchLoop_spec env url ["https://corsproxy.io/?",
        "https://api.codetabs.com/v1/proxy?quest="]
        (w.requests ++ [requestUrl url "https://api.allorigins.win/raw?url="]) with
      ⟨pre, p, post, text, _, _, _, hres⟩ | ⟨_, hres⟩
    · rw [hres]
      exact ⟨(pre ++ [p]).map (requestUrl url), by simp⟩
    · rw [hres]
      exact ⟨["https://corsproxy.io/?", "https://api.codetabs.com/v1/proxy?quest="].map
        (requestUrl url), by simp⟩

theorem fetchWithProxy_all_fail (env : Env) (url : String) (w : World)
    (hall : ∀ p ∈ CONFIG.corsProxies, relayText env (requestUrl url p) = none) :
    (fetchWithProxy env url w).1 = Except.error (JSError.error "All CORS proxies failed") := by
  rcases fetchLoop_spec env url CONFIG.corsProxies w.requests with
    ⟨pre, p, post, text, hsplit, _, hp, _⟩ | ⟨_, hres⟩
  · have := hall p (by rw [hsplit]; simp)
    rw [this] at hp
    exact absurd hp (by simp)
  · simp [fetchWithProxy, hres]

theorem setCachedData_eq (env : Env) (data : MetricData) (w : World) :
    setCachedData env data w
      = if env.quotaExceeded then w else { w with cache := some (JSONstringify data) } := by
  unfold setCachedData
  cases env.quotaExceeded <;> rfl

theorem setCachedData_requests (env : Env) (data : MetricData) (w : World) :
    (setCachedData env data w).requests = w.requests := by
  rw [setCachedData_eq]
  split <;> rfl

theorem fetchDataTry_requests (env : Env) (w : World) :
    (fetchDataTry env w).2.requests
      = (fetchWithProxy env CONFIG.researchGateUrl w).2.requests := by
  unfold fetchDataTry
  generalize fetchWithProxy env CONFIG.researchGateUrl w = r
  rcases r with ⟨res, w1⟩
  cases res with
  | error e => rfl
  | ok html =>
    simp only
    split
    · simp only [setCachedData_requests]
    · rfl

theorem fetchFresh_requests (env : Env) (w : World) :
    (fetchFresh env w).2.requests
      = (fetchWithProxy env CONFIG.researchGateUrl w).2.requests := by
  rw [← fetchDataTry_requests]
  unfold fetchFresh
  split <;> simp_all

theorem fetchData_of_miss (env : Env) (w : World) (h : getCachedData env w = none) :
    fetchData env w = fetchFresh env w := by
  simp [fetchData, h]

theorem fetchData_of_fresh (env : Env) (w : World) (fields : List (String × JVal))
    (h : getCachedData env w = some (JVal.obj fields)) :
    fetchData env w
      = (Except.ok (JVal.obj (setField "fromCache" (JVal.bool true) fields)), w) := by
  simp [fetchData, h, JVal.truthy, JVal.spread]

/-- C5: when the entry under the cache key is the JSON text of an object whose
`lastUpdated` reads as less than 24 hours before now, `fetchData()` makes no request
and leaves the entry as it is; it resolves with an object that has `fromCache` true
and, under every other key (`publications`, `citations`, `reads` and `lastUpdated`
among them), what the stored object has. -/
theorem fetchData_cached (env : Env) (w : World) (fields : List (String × JVal)) (v : JVal)
    (t : Int) (hc : w.cache = some (Stored.json (JVal.obj fields)))
    (hl : fields.lookup "lastUpdated" = some v) (hd : env.dateTime v = Except.ok (some t))
    (hlt : env.now - t < 24 * 60 * 60 * 1000) :
    ∃ result, fetchData env w = (Except.ok (JVal.obj result), w) ∧
      result.lookup "fromCache" = some (JVal.bool true) ∧
      result.lookup "publications" = fields.lookup "publications" ∧
      result.lookup "citations" = fields.lookup "citations" ∧
      result.lookup "reads" = fields.lookup "reads" ∧
      result.lookup "lastUpdated" = fields.lookup "lastUpdated" ∧
      ∀ key, key ≠ "fromCache" → result.lookup key = fields.lookup key := by
  have hfresh : getCachedData env w = some (JVal.obj fields) :=
    getCachedData_of_fresh env w _ ⟨hc, fields, v, t, rfl, hl, hd, hlt⟩
  refine ⟨setField "fromCache" (JVal.bool true) fields, fetchData_of_fresh env w fields hfresh,
    lookup_setField_self _ _ _, ?_, ?_, ?_, ?_, ?_⟩
  · exact lookup_setField_ne _ _ _ _ (by decide)
  · exact lookup_setField_ne _ _ _ _ (by decide)
  · exact lookup_setField_ne _ _ _ _ (by decide)
  · exact lookup_setField_ne _ _ _ _ (by decide)
  · intro key hkey
    exact lookup_setField_ne _ _ _ _ hkey

theorem fetchData_cached_witness :
    ∃ result, fetchData (sampleEnv "" false)
        { cache := some (JSONstringify sampleSnapshot), requests := [] }
        = (Except.ok (JVal.obj result),
            { cache := some (JSONstringify sampleSnapshot), requests := [] }) ∧
      result.lookup "fromCache" = some (JVal.bool true) ∧
      result.lookup "publications" = some (JVal.num (some 7)) ∧
      result.lookup "citations" = some (JVal.num (some 8)) ∧
      result.lookup "reads" = some (JVal.num (some 9)) ∧
      result.lookup "lastUpdated" = some (JVal.str "2024-01-01T00:00:00.000Z") := by
  obtain ⟨result, h1, h2, h3, h4, h5, h6, _⟩ :=
    fetchData_cached (sampleEnv "" false)
      { cache := some (JSONstringify sampleSnapshot), requests := [] }
      sampleSnapshot.fields (JVal.str "2024-01-01T00:00:00.000Z") 1704067200000 rfl
      rfl rfl (by decide)
  exact ⟨result, h1, h2, h3.trans rfl, h4.trans rfl, h5.trans rfl, h6.trans rfl⟩

theorem fallbackResult_eq (env : Env) : fallbackResult env = fallbackObject env.loadISO := by
  simp [fallbackResult, fallbackObject, CONFIG.fallbackData, setField]

theorem fetchDataTry_cache_of_error (env : Env) (w : World) (e : JSError)
    (h : (fetchWithProxy env CONFIG.researchGateUrl w).1 = Except.error e) :
    (fetchDataTry env w).1 = Except.error e ∧ (fetchDataTry env w).2.cache = w.cache := by
  unfold fetchDataTry
  have hc := fetchWithProxy_cache env CONFIG.researchGateUrl w
  revert h hc
  generalize fetchWithProxy env CONFIG.researchGateUrl w = r
  rcases r with ⟨res, w1⟩
  intro h hc
  simp only at h hc
  subst h
  exact ⟨rfl, hc⟩

theorem fetchDataTry_of_ok (env : Env) (w : World) (html : String)
    (h : (fetchWithProxy env CONFIG.researchGateUrl w).1 = Except.ok html) :
    fetchDataTry env w =
      if (parseResearchGateData env.nowISO html).publications.isPositive ||
          (parseResearchGateData env.nowISO html).citations.isPositive ||
          (parseResearchGateData env.nowISO html).reads.isPositive then
        (Except.ok (some (JVal.obj (setField "fromCache" (JVal.bool false)
            (parseResearchGateData env.nowISO html).fields))),
          setCachedData env (parseResearchGateData env.nowISO html)
            (fetchWithProxy env CONFIG.researchGateUrl w).2)
      else (Except.ok none, (fetchWithProxy env CONFIG.researchGateUrl w).2) := by
  unfold fetchDataTry
  revert h
  generalize fetchWithProxy env CONFIG.researchGateUrl w = r
  rcases r with ⟨res, w1⟩
  intro h
  simp only at h
  subst h
  rfl

/-- C6: on a cache miss, when every relay fails or the text fetched parses to
an all-zero snapshot, `fetchData()` resolves with the static fallback snapshot
(105, 1041, 16593) with `fromCache` false and `isFallback` true, and the entry under
the cache key is afterwards what it was before. -/
theorem fetchData_fallback (env : Env) (w : World) (hmiss : getCachedData env w = none)
    (h : (∀ p ∈ CONFIG.corsProxies,
            relayText env (requestUrl CONFIG.researchGateUrl p) = none) ∨
        ∃ html, (fetchWithProxy env CONFIG.researchGateUrl w).1 = Except.ok html ∧
          (parseResearchGateData env.nowISO html).allZero) :
    (fetchData env w).1 = Except.ok (fallbackObject env.loadISO) ∧
      (fetchData env w).2.cache = w.cache := by
  rw [fetchData_of_miss env w hmiss, ← fallbackResult_eq]
  rcases h with hall | ⟨html, hok, hz1, hz2, hz3⟩
  · have herr := fetchWithProxy_all_fail env CONFIG.researchGateUrl w hall
    obtain ⟨h1, h2⟩ := fetchDataTry_cache_of_error env w _ herr
    unfold fetchFresh
    revert h1 h2
    generalize fetchDataTry env w = r
    rcases r with ⟨res, w1⟩
    intro h1 h2
    simp only at h1 h2
    subst h1
    exact ⟨rfl, h2⟩
  · unfold fetchFresh
    rw [fetchDataTry_of_ok env w html hok]
    simp [hz1, hz2, hz3, JSNumber.isPositive, fetchWithProxy_cache]

set_option maxRecDepth 100000 in
theorem fetchData_fallback_witness :
    (fetchData (sampleEnv "<html><body>Please enable JavaScript</body></html>" false)
        { cache := some Stored.malformed, requests := [] }).1
        = Except.ok (fallbackObject "2024-01-01T00:59:00.000Z") ∧
      (fetchData (sampleEnv "<html><body>Please enable JavaScript</body></html>" false)
        { cache := some Stored.malformed, requests := [] }).2.cache = some Stored.malformed :=
  fetchData_fallback (sampleEnv "<html><body>Please enable JavaScript</body></html>" false)
    { cache := some Stored.malformed, requests := [] } rfl
    (Or.inr ⟨"<html><body>Please enable JavaScript</body></html>", by rfl, by rfl, by rfl, by rfl⟩)

/-- C7, the claim fails: an entry one hour old that holds a timestamp and no count is
not a snapshot, and `getCachedData()` returns it. -/
theorem getCachedData_returns_incomplete_entry :
    ¬ IsSnapshot timestampOnly ∧
      getCachedData (sampleEnv "" false)
        { cache := some (Stored.json timestampOnly), requests := [] } = some timestampOnly := by
  refine ⟨?_, rfl⟩
  rintro ⟨⟨fields, hobj, ⟨n, _, hn⟩, _⟩, _⟩
  simp only [timestampOnly, JVal.obj.injEq] at hobj
  subst hobj
  simp [List.lookup] at hn

/-- C7 as amended: `getCachedData()` returns `null` exactly when the entry is not
the JSON text of an object whose `lastUpdated` reads as less than 24 hours before
now: so when there is no entry, when it is empty or not JSON, and when its
`lastUpdated` reads as 24 hours ago or more (exactly 24 hours included); and
whenever it returns `null`, `fetchData()` requests the page from the first relay. -/
theorem getCachedData_absent (env : Env) (w : World) :
    (getCachedData env w = none ↔ ¬ ∃ data, FreshEntry env w data) ∧
    (w.cache = none ∨ w.cache = some Stored.empty ∨ w.cache = some Stored.malformed →
      getCachedData env w = none) ∧
    (∀ fields v t, w.cache = some (Stored.json (JVal.obj fields)) →
      fields.lookup "lastUpdated" = some v → env.dateTime v = Except.ok (some t) →
      24 * 60 * 60 * 1000 ≤ env.now - t → getCachedData env w = none) ∧
    (getCachedData env w = none →
      ∃ more, (fetchData env w).2.requests = w.requests ++
        requestUrl CONFIG.researchGateUrl "https://api.allorigins.win/raw?url=" :: more) := by
  have hiff : getCachedData env w = none ↔ ¬ ∃ data, FreshEntry env w data := by
    constructor
    · rintro h ⟨data, hd⟩
      rw [getCachedData_of_fresh env w data hd] at h
      exact absurd h (by simp)
    · intro h
      cases hg : getCachedData env w with
      | none => rfl
      | some data => exact absurd ⟨data, fresh_of_getCachedData env w data hg⟩ h
  refine ⟨hiff, ?_, ?_, ?_⟩
  · intro h
    rw [hiff]
    rintro ⟨data, hc, _⟩
    rw [hc] at h
    simp at h
  · intro fields v t hc hl hd hstale
    rw [hiff]
    rintro ⟨data, hc2, f2, v2, t2, hobj, hl2, hd2, hlt⟩
    rw [hc] at hc2
    simp only [Option.some.injEq, Stored.json.injEq] at hc2
    subst hc2
    simp only [JVal.obj.injEq] at hobj
    subst hobj
    rw [hl] at hl2
    simp only [Option.some.injEq] at hl2
    subst hl2
    rw [hd] at hd2
    simp only [Except.ok.injEq, Option.some.injEq] at hd2
    subst hd2
    simp only [CONFIG.cacheExpiry] at hlt
    omega
  · intro h
    rw [fetchData_of_miss env w h, fetchFresh_requests]
    exact fetchWithProxy_requests env CONFIG.researchGateUrl w

theorem getCachedData_absent_witness :
    getCachedData (sampleEnv "12 Publications" false)
        { cache := some (JSONstringify daySnapshot), requests := [] } = none ∧
      ∃ more, (fetchData (sampleEnv "12 Publications" false)
          { cache := some (JSONstringify daySnapshot), requests := [] }).2.requests
        = [] ++ requestUrl CONFIG.researchGateUrl "https://api.allorigins.win/raw?url=" :: more :=
  have h := getCachedData_absent (sampleEnv "12 Publications" false)
    { cache := some (JSONstringify daySnapshot), requests := [] }
  have hnone := h.2.2.1 daySnapshot.fields (JVal.str "2023-12-31T01:00:00.000Z") 1703984400000
    rfl rfl rfl (by decide)
  ⟨hnone, h.2.2.2 hnone⟩

/-- C8, the claim fails: when the store refuses the write, `setCachedData(s)` leaves
the cache empty and the `getCachedData()` that follows returns `null`, although
`s.lastUpdated` is one hour old. -/
theorem roundtrip_lost_when_write_refused :
    (sampleEnv "" true).dateTime (JVal.str sampleSnapshot.lastUpdated)
        = Except.ok (some 1704067200000) ∧
      (sampleEnv "" true).now - 1704067200000 < CONFIG.cacheExpiry ∧
      getCachedData (sampleEnv "" true)
        (setCachedData (sampleEnv "" true) sampleSnapshot { cache := none, requests := [] })
        = none :=
  ⟨rfl, by decide, rfl⟩

/-- C8 as amended: for every snapshot `s` whose `lastUpdated` reads as less than 24
hours before now, provided the store accepts the write, `setCachedData(s)` followed by
`getCachedData()` returns an object with the `publications`, `citations`, `reads` and
`lastUpdated` of `s`. -/
theorem cache_roundtrip (env : Env) (w : World) (p c r : Int) (lastUpdated : String) (t : Int)
    (hq : env.quotaExceeded = false)
    (hd : env.dateTime (JVal.str lastUpdated) = Except.ok (some t))
    (hlt : env.now - t < 24 * 60 * 60 * 1000) :
    getCachedData env (setCachedData env
        { publications := some p, citations := some c, reads := some r,
          lastUpdated := lastUpdated } w)
      = some (JVal.obj
          [("publications", JVal.num (some p)), ("citations", JVal.num (some c)),
            ("reads", JVal.num (some r)), ("lastUpdated", JVal.str lastUpdated)]) := by
  apply getCachedData_of_fresh
  refine ⟨?_, _, JVal.str lastUpdated, t, rfl, ?_, hd, hlt⟩
  · simp [setCachedData_eq, hq, JSONstringify, jsonNumber]
  · simp [List.lookup]

theorem cache_roundtrip_witness :
    getCachedData (sampleEnv "" false) (setCachedData (sampleEnv "" false)
        { publications := some 7, citations := some 8, reads := some 9,
          lastUpdated := "2024-01-01T00:00:00.000Z" } { cache := none, requests := [] })
      = some (JVal.obj
          [("publications", JVal.num (some 7)), ("citations", JVal.num (some 8)),
            ("reads", JVal.num (some 9)),
            ("lastUpdated", JVal.str "2024-01-01T00:00:00.000Z")]) :=
  cache_roundtrip (sampleEnv "" false) { cache := none, requests := [] } 7 8 9
    "2024-01-01T00:00:00.000Z" 1704067200000 rfl rfl (by decide)

/-! ## Totality and forced refresh -/

theorem nonNegativeCounts_setField (fields : List (String × JVal)) (key : String) (v : JVal)
    (h1 : key ≠ "publications") (h2 : key ≠ "citations") (h3 : key ≠ "reads")
    (h : NonNegativeCounts (JVal.obj fields)) :
    NonNegativeCounts (JVal.obj (setField key v fields)) := by
  obtain ⟨f, hf, hp, hc, hr⟩ := h
  simp only [JVal.obj.injEq] at hf
  subst hf
  refine ⟨_, rfl, ?_, ?_, ?_⟩
  · rw [lookup_setField_ne _ _ _ _ (Ne.symm h1)]; exact hp
  · rw [lookup_setField_ne _ _ _ _ (Ne.symm h2)]; exact hc
  · rw [lookup_setField_ne _ _ _ _ (Ne.symm h3)]; exact hr

theorem countsOrInfinity_setField (fields : List (String × JVal)) (key : String) (v : JVal)
    (h1 : key ≠ "publications") (h2 : key ≠ "citations") (h3 : key ≠ "reads")
    (h : CountsOrInfinity (JVal.obj fields)) :
    CountsOrInfinity (JVal.obj (setField key v fields)) := by
  obtain ⟨f, hf, hp, hc, hr⟩ := h
  simp only [JVal.obj.injEq] at hf
  subst hf
  refine ⟨_, rfl, ?_, ?_, ?_⟩
  · rw [lookup_setField_ne _ _ _ _ (Ne.symm h1)]; exact hp
  · rw [lookup_setField_ne _ _ _ _ (Ne.symm h2)]; exact hc
  · rw [lookup_setField_ne _ _ _ _ (Ne.symm h3)]; exact hr

theorem countsOrInfinity_of_nonNegative (v : JVal) (h : NonNegativeCounts v) :
    CountsOrInfinity v := by
  obtain ⟨f, hf, ⟨p, hp, hp1⟩, ⟨c, hc, hc1⟩, ⟨r, hr, hr1⟩⟩ := h
  exact ⟨f, hf, ⟨_, Or.inl ⟨p, hp, rfl⟩, hp1⟩, ⟨_, Or.inl ⟨c, hc, rfl⟩, hc1⟩,
    ⟨_, Or.inl ⟨r, hr, rfl⟩, hr1⟩⟩

theorem countsOrInfinity_fields (nowISO html : String) :
    CountsOrInfinity (JVal.obj (parseResearchGateData nowISO html).fields) := by
  obtain ⟨hp, hc, hr⟩ := parseResearchGateData_fromRun nowISO html
  refine ⟨_, rfl, ⟨_, isCount_of_fromRun _ _ hp, ?_⟩, ⟨_, isCount_of_fromRun _ _ hc, ?_⟩,
    ⟨_, isCount_of_fromRun _ _ hr, ?_⟩⟩
  · simp [MetricData.fields, List.lookup]
  · simp [MetricData.fields, List.lookup]
  · simp [MetricData.fields, List.lookup]

theorem nonNegativeCounts_fields (nowISO html : String) (hs : ShortRuns html.toList) :
    NonNegativeCounts (JVal.obj (parseResearchGateData nowISO html).fields) := by
  obtain ⟨hp, hc, hr⟩ := parseResearchGateData_fromRun nowISO html
  obtain ⟨p, hp0, hp1⟩ := integer_of_fromRun _ _ hs hp
  obtain ⟨c, hc0, hc1⟩ := integer_of_fromRun _ _ hs hc
  obtain ⟨r, hr0, hr1⟩ := integer_of_fromRun _ _ hs hr
  refine ⟨_, rfl, ⟨p, hp0, ?_⟩, ⟨c, hc0, ?_⟩, ⟨r, hr0, ?_⟩⟩
  · simp [MetricData.fields, List.lookup, hp1]
  · simp [MetricData.fields, List.lookup, hc1]
  · simp [MetricData.fields, List.lookup, hr1]

theorem nonNegativeCounts_fallback (loadISO : String) :
    NonNegativeCounts (fallbackObject loadISO) :=
  ⟨_, rfl, ⟨105, by decide, rfl⟩, ⟨1041, by decide, rfl⟩, ⟨16593, by decide, rfl⟩⟩

/-- After a cache miss `fetchData` resolves either with the object made of the
counts just extracted and `fromCache` false, or with the fallback object. -/
theorem fetchFresh_result (env : Env) (w : World) :
    (∃ html, (fetchWithProxy env CONFIG.researchGateUrl w).1 = Except.ok html ∧
      (fetchFresh env w).1 = Except.ok (JVal.obj (setField "fromCache" (JVal.bool false)
        (parseResearchGateData env.nowISO html).fields))) ∨
    (fetchFresh env w).1 = Except.ok (fallbackObject env.loadISO) := by
  cases hres : (fetchWithProxy env CONFIG.researchGateUrl w).1 with
  | error e =>
    right
    obtain ⟨h1, _⟩ := fetchDataTry_cache_of_error env w e hres
    unfold fetchFresh
    revert h1
    generalize fetchDataTry env w = r
    rcases r with ⟨res, w1⟩
    intro h1
    simp only at h1
    subst h1
    simp [fallbackResult_eq]
  | ok html =>
    unfold fetchFresh
    rw [fetchDataTry_of_ok env w html hres]
    by_cases hpos : ((parseResearchGateData env.nowISO html).publications.isPositive ||
        (parseResearchGateData env.nowISO html).citations.isPositive ||
        (parseResearchGateData env.nowISO html).reads.isPositive) = true
    · left
      rw [if_pos hpos]
      exact ⟨html, rfl, rfl⟩
    · right
      rw [if_neg hpos]
      simp [fallbackResult_eq]

set_option exponentiation.threshold 2000 in
set_option maxRecDepth 100000 in
/-- C1, the claim fails. With an entry one hour old whose `publications` is `-5`,
whose `citations` is a string and whose `reads` is missing, `fetchData()` resolves
with those fields as stored. With no entry and a page that reads
`Publications (99...9)` with 310 digits, `fetchData()` resolves with
`publications = Infinity`, which `parseInt` gives for a run of digits too long for a
double. -/
theorem fetchData_returns_stored_counts :
    (fetchData (sampleEnv "" false)
        { cache := some (Stored.json corruptEntry), requests := [] }).1
      = Except.ok (JVal.obj
          [("publications", JVal.num (some (-5))), ("citations", JVal.str "many"),
            ("lastUpdated", JVal.str "2024-01-01T00:00:00.000Z"),
            ("fromCache", JVal.bool true)]) ∧
    ¬ NonNegativeCounts (JVal.obj
          [("publications", JVal.num (some (-5))), ("citations", JVal.str "many"),
            ("lastUpdated", JVal.str "2024-01-01T00:00:00.000Z"),
            ("fromCache", JVal.bool true)]) ∧
    (fetchData (sampleEnv ("Publications (" ++ longRun ++ ")") false)
        { cache := none, requests := [] }).1
      = Except.ok (JVal.obj
          [("publications", JVal.num (some (JSDouble.infinity false))),
            ("citations", JVal.num (some 0)), ("reads", JVal.num (some 0)),
            ("lastUpdated", JVal.str "2024-01-01T01:00:00.000Z"),
            ("fromCache", JVal.bool false)]) ∧
    ¬ NonNegativeCounts (JVal.obj
          [("publications", JVal.num (some (JSDouble.infinity false))),
            ("citations", JVal.num (some 0)), ("reads", JVal.num (some 0)),
            ("lastUpdated", JVal.str "2024-01-01T01:00:00.000Z"),
            ("fromCache", JVal.bool false)]) := by
  refine ⟨rfl, ?_, by rfl, ?_⟩
  · rintro ⟨fields, hobj, ⟨n, hn, hp⟩, _⟩
    simp only [JVal.obj.injEq] at hobj
    subst hobj
    simp only [List.lookup_cons_self, Option.some.injEq, JVal.num.injEq] at hp
    have h5 : (-5 : JSDouble) = JSDouble.int (-5) := rfl
    rw [h5] at hp
    simp only [JSDouble.int.injEq] at hp
    omega
  · rintro ⟨fields, hobj, ⟨n, hn, hp⟩, _⟩
    simp only [JVal.obj.injEq] at hobj
    subst hobj
    simp only [List.lookup_cons_self, Option.some.injEq, JVal.num.injEq] at hp
    exact absurd hp (by simp)

/-- C1 as amended: `fetchData()` never throws and always resolves with an object.
Whenever `getCachedData()` returns `null` (the live and the fallback path), each of
its `publications`, `citations` and `reads` is a non-negative integer or `Infinity`,
and a non-negative integer when the text fetched has no run of digits and commas
longer than 308 characters. On a cache hit the stored object is returned as it is:
its counts are non-negative integers whenever those of the stored object are. -/
theorem fetchData_total (env : Env) (w : World) :
    (∃ fields, (fetchData env w).1 = Except.ok (JVal.obj fields)) ∧
    (getCachedData env w = none →
      ∃ v, (fetchData env w).1 = Except.ok v ∧ CountsOrInfinity v ∧
        ((∀ html, (fetchWithProxy env CONFIG.researchGateUrl w).1 = Except.ok html →
            ShortRuns html.toList) → NonNegativeCounts v)) ∧
    (∀ data, getCachedData env w = some data → NonNegativeCounts data →
      ∃ v, (fetchData env w).1 = Except.ok v ∧ NonNegativeCounts v) := by
  have hmiss : getCachedData env w = none →
      ∃ v, (fetchData env w).1 = Except.ok v ∧ CountsOrInfinity v ∧
        ((∀ html, (fetchWithProxy env CONFIG.researchGateUrl w).1 = Except.ok html →
            ShortRuns html.toList) → NonNegativeCounts v) := by
    intro h
    rw [fetchData_of_miss env w h]
    rcases fetchFresh_result env w with ⟨html, hhtml, hres⟩ | hres
    · exact ⟨_, hres, countsOrInfinity_setField _ _ _ (by decide) (by decide) (by decide)
          (countsOrInfinity_fields env.nowISO html),
        fun hs => nonNegativeCounts_setField _ _ _ (by decide) (by decide) (by decide)
          (nonNegativeCounts_fields env.nowISO html (hs html hhtml))⟩
    · exact ⟨_, hres, countsOrInfinity_of_nonNegative _ (nonNegativeCounts_fallback env.loadISO),
        fun _ => nonNegativeCounts_fallback env.loadISO⟩
  have hhit : ∀ data, getCachedData env w = some data →
      ∃ fields, data = JVal.obj fields ∧
        (fetchData env w).1
          = Except.ok (JVal.obj (setField "fromCache" (JVal.bool true) fields)) := by
    intro data h
    obtain ⟨_, fields, _, _, hobj, _⟩ := fresh_of_getCachedData env w data h
    subst hobj
    exact ⟨fields, rfl, by rw [fetchData_of_fresh env w fields h]⟩
  refine ⟨?_, hmiss, ?_⟩
  · cases h : getCachedData env w with
    | none =>
      obtain ⟨v, hv, ⟨f, hf, _⟩, _⟩ := hmiss h
      subst hf
      exact ⟨f, hv⟩
    | some data =>
      obtain ⟨fields, _, hres⟩ := hhit data h
      exact ⟨_, hres⟩
  · intro data h hcounts
    obtain ⟨fields, hobj, hres⟩ := hhit data h
    subst hobj
    exact ⟨_, hres, nonNegativeCounts_setField _ _ _ (by decide) (by decide) (by decide) hcounts⟩

theorem shortRuns_of_length (s : List Char) (h : s.length ≤ 308) : ShortRuns s :=
  fun _ hg _ => le_trans hg.length_le h

theorem fetchData_total_witness :
    ∃ v, (fetchData (sampleEnv "<p>12 Publications</p>" false)
        { cache := some Stored.malformed, requests := [] }).1 = Except.ok v ∧
      CountsOrInfinity v ∧ NonNegativeCounts v :=
  have h := (fetchData_total (sampleEnv "<p>12 Publications</p>" false)
    { cache := some Stored.malformed, requests := [] }).2.1 rfl
  h.elim fun v hv => ⟨v, hv.1, hv.2.1, hv.2.2 (fun html hhtml => by
    have e : html = "<p>12 Publications</p>" := by
      have h1 : (fetchWithProxy (sampleEnv "<p>12 Publications</p>" false)
          CONFIG.researchGateUrl { cache := some Stored.malformed, requests := [] }).1
          = Except.ok "<p>12 Publications</p>" := by rfl
      rw [h1] at hhtml
      exact (Except.ok.inj hhtml).symm
    rw [e]
    exact shortRuns_of_length _ (by decide))⟩

theorem refreshData_eq (env : Env) (w : World) (hrm : env.removeItemThrows = false) :
    refreshData env w = fetchFresh env { w with cache := none } := by
  unfold refreshData
  rw [hrm]
  simp only [Bool.false_eq_true, if_false]
  exact fetchData_of_miss env _ rfl

theorem isPositive_of_ne_zero (n : JSNumber) (hn : JSNumber.IsCount n)
    (hne : n ≠ some 0) : n.isPositive = true := by
  rcases hn with ⟨k, hk, hn⟩ | hn
  · subst hn
    have : k ≠ 0 := fun h => hne (by rw [h]; rfl)
    simp only [JSNumber.isPositive, decide_eq_true_eq]
    omega
  · subst hn
    rfl

theorem jsonNumber_int (n : JSNumber) (k : Int) (h : n = some (JSDouble.int k)) :
    jsonNumber n = JVal.num n := by
  subst h
  rfl

set_option exponentiation.threshold 2000 in
set_option maxRecDepth 100000 in
/-- C10, the claim fails. The page is fetched and parsed to `publications = 105`, the
store refuses the write, and after `refreshData()` has resolved with the live
snapshot the cache is empty. Where the page is denied access to the store,
`localStorage.removeItem` throws: `refreshData()` rejects and no request is made. And
for a page that reads `Publications (99...9)` with 310 digits, `refreshData()`
resolves with `publications = Infinity` while the cache holds `publications = null`. -/
theorem refreshData_cache_not_written :
    (refreshData (sampleEnv "Publications (105)" true)
        { cache := some (JSONstringify sampleSnapshot), requests := [] }).1
      = Except.ok (JVal.obj
          [("publications", JVal.num (some 105)), ("citations", JVal.num (some 0)),
            ("reads", JVal.num (some 0)), ("lastUpdated", JVal.str "2024-01-01T01:00:00.000Z"),
            ("fromCache", JVal.bool false)]) ∧
    (refreshData (sampleEnv "Publications (105)" true)
        { cache := some (JSONstringify sampleSnapshot), requests := [] }).2.cache = none ∧
    (refreshData (lockedEnv "Publications (105)")
        { cache := some (JSONstringify sampleSnapshot), requests := [] }).1
      = Except.error JSError.securityError ∧
    (refreshData (lockedEnv "Publications (105)")
        { cache := some (JSONstringify sampleSnapshot), requests := [] }).2.requests = [] ∧
    (refreshData (sampleEnv ("Publications (" ++ longRun ++ ")") false)
        { cache := none, requests := [] }).1
      = Except.ok (JVal.obj
          [("publications", JVal.num (some (JSDouble.infinity false))),
            ("citations", JVal.num (some 0)), ("reads", JVal.num (some 0)),
            ("lastUpdated", JVal.str "2024-01-01T01:00:00.000Z"),
            ("fromCache", JVal.bool false)]) ∧
    (refreshData (sampleEnv ("Publications (" ++ longRun ++ ")") false)
        { cache := none, requests := [] }).2.cache
      = some (Stored.json (JVal.obj
          [("publications", JVal.null), ("citations", JVal.num (some 0)),
            ("reads", JVal.num (some 0)),
            ("lastUpdated", JVal.str "2024-01-01T01:00:00.000Z")])) :=
  ⟨by rfl, by rfl, by rfl, by rfl, by rfl, by rfl⟩

/-- C10 as amended: provided `localStorage.removeItem` does not throw, whatever the
entry under the cache key, `refreshData()` requests the page from the first relay; and
when a relay delivers text whose counts are not all zero, it resolves with the
snapshot extracted from that text and `fromCache` false (and no `isFallback`), and,
provided the store accepts the write, the cache afterwards holds
`JSON.stringify` of that snapshot, which is that snapshot itself when the text has no
run of digits and commas longer than 308 characters (no count is `Infinity`). -/
theorem refreshData_live (env : Env) (w : World) (hrm : env.removeItemThrows = false) :
    (∃ more, (refreshData env w).2.requests = w.requests ++
        requestUrl CONFIG.researchGateUrl "https://api.allorigins.win/raw?url=" :: more) ∧
    (∀ html, (fetchWithProxy env CONFIG.researchGateUrl w).1 = Except.ok html →
      ¬ (parseResearchGateData env.nowISO html).allZero →
      (refreshData env w).1 = Except.ok (JVal.obj
          ((parseResearchGateData env.nowISO html).fields ++
            [("fromCache", JVal.bool false)])) ∧
      (env.quotaExceeded = false →
        (refreshData env w).2.cache
            = some (JSONstringify (parseResearchGateData env.nowISO html)) ∧
          (ShortRuns html.toList →
            (refreshData env w).2.cache = some (Stored.json
              (JVal.obj (parseResearchGateData env.nowISO html).fields))))) := by
  rw [refreshData_eq env w hrm]
  constructor
  · rw [fetchFresh_requests]
    exact fetchWithProxy_requests env CONFIG.researchGateUrl { w with cache := none }
  · intro html hres hnz
    have hres1 : (fetchWithProxy env CONFIG.researchGateUrl { w with cache := none }).1
        = Except.ok html := by
      rw [← hres]
      exact fetchWithProxy_result_indep env _ _ _
    obtain ⟨hp, hc, hr⟩ := parseResearchGateData_fromRun env.nowISO html
    have hpos : ((parseResearchGateData env.nowISO html).publications.isPositive ||
        (parseResearchGateData env.nowISO html).citations.isPositive ||
        (parseResearchGateData env.nowISO html).reads.isPositive) = true := by
      by_contra hcon
      simp only [Bool.or_eq_true, not_or, Bool.not_eq_true] at hcon
      apply hnz
      refine ⟨?_, ?_, ?_⟩
      · by_contra h0
        rw [isPositive_of_ne_zero _ (isCount_of_fromRun _ _ hp) h0] at hcon
        exact absurd hcon.1.1 (by simp)
      · by_contra h0
        rw [isPositive_of_ne_zero _ (isCount_of_fromRun _ _ hc) h0] at hcon
        exact absurd hcon.1.2 (by simp)
      · by_contra h0
        rw [isPositive_of_ne_zero _ (isCount_of_fromRun _ _ hr) h0] at hcon
        exact absurd hcon.2 (by simp)
    unfold fetchFresh
    rw [fetchDataTry_of_ok env _ html hres1, if_pos hpos]
    refine ⟨?_, ?_⟩
    · simp [MetricData.fields, setField]
    · intro hq
      have hcache : (setCachedData env (parseResearchGateData env.nowISO html)
          (fetchWithProxy env CONFIG.researchGateUrl { w with cache := none }).2).cache
          = some (JSONstringify (parseResearchGateData env.nowISO html)) := by
        simp only [setCachedData_eq, hq, Bool.false_eq_true, if_false]
      refine ⟨hcache, ?_⟩
      intro hs
      obtain ⟨p, _, hp1⟩ := integer_of_fromRun _ _ hs hp
      obtain ⟨c, _, hc1⟩ := integer_of_fromRun _ _ hs hc
      obtain ⟨r, _, hr1⟩ := integer_of_fromRun _ _ hs hr
      simp only [hcache, JSONstringify, jsonNumber_int _ p hp1, jsonNumber_int _ c hc1,
        jsonNumber_int _ r hr1, MetricData.fields]

set_option exponentiation.threshold 2000 in
set_option maxRecDepth 100000 in
theorem refreshData_live_witness :
    (sampleEnv "Publications (105)" false).removeItemThrows = false ∧
    (refreshData (sampleEnv "Publications (105)" false)
        { cache := some (JSONstringify sampleSnapshot), requests := [] }).1
      = Except.ok (JVal.obj
          ((parseResearchGateData "2024-01-01T01:00:00.000Z" "Publications (105)").fields ++
            [("fromCache", JVal.bool false)])) ∧
    (refreshData (sampleEnv "Publications (105)" false)
        { cache := some (JSONstringify sampleSnapshot), requests := [] }).2.cache
      = some (Stored.json (JVal.obj
          (parseResearchGateData "2024-01-01T01:00:00.000Z" "Publications (105)").fields)) :=
  have h := (refreshData_live (sampleEnv "Publications (105)" false)
    { cache := some (JSONstringify sampleSnapshot), requests := [] } rfl).2 "Publications (105)"
    (by rfl) (fun hz => absurd hz.1 (by decide))
  ⟨rfl, h.1, (h.2 rfl).2 (shortRuns_of_length _ (by decide))⟩

end ResearchGateDataFetcher
